import Mathlib

/-!
Shallow embedding of `run_pretrained_openfold.py` (batch orchestration driver
for the OpenFold inference pipeline), together with theorems settling the
frozen claims about its specification.

Modelling conventions:
* External collaborators excluded by the spec (alignment tools, the feature
  library `data_pipeline` / `feature_pipeline`, the model, relaxation, format
  encoders, checkpoint loading) are modelled as oracle functions collected in
  the structure `Ext`; a `Bool`-valued field says whether a given call
  succeeds, and raising is modelled with `Except`.
* The filesystem is modelled as the set (duplicate-free list) of file paths
  present; directories are not tracked (`os.makedirs` has no observable
  effect on the claims).
* Python exceptions are `Except (String × RunState)`: an error carries the
  message and the state at the moment of the raise, since side effects
  performed before an exception persist.
* Machine integers do not occur: all quantities are Python ints (arbitrary
  precision), modelled as `Nat`.
-/

namespace RunOpenfold

/-- Decidable equality for `Except`, used to evaluate concrete runs. -/
instance {ε α : Type} [DecidableEq ε] [DecidableEq α] : DecidableEq (Except ε α)
  | .error e, .error f =>
    if h : e = f then isTrue (by rw [h]) else isFalse (by intro hh; cases hh; exact h rfl)
  | .error _, .ok _ => isFalse (by intro h; cases h)
  | .ok _, .error _ => isFalse (by intro h; cases h)
  | .ok a, .ok b =>
    if h : a = b then isTrue (by rw [h]) else isFalse (by intro hh; cases hh; exact h rfl)

abbrev Tag := String

/-- A work target as discovered by the catalog scan (lines 272-294 of the
source): composite tag (chain tags joined with "-"), chain tag list, chain
sequences and the source file stem used for output naming. -/
structure Target where
  tag : Tag
  tags : List Tag
  seqs : List String
  fileName : String
deriving Repr, DecidableEq

/-- TRACING_INTERVAL = 50 (line 65). -/
def TRACING_INTERVAL : Nat := 50

/-- round_up_seqlen (lines 156-157): `int(math.ceil(seqlen / 50)) * 50`,
i.e. ceiling division by the tracing interval times the interval. -/
def round_up_seqlen (seqlen : Nat) : Nat :=
  ((seqlen + TRACING_INTERVAL - 1) / TRACING_INTERVAL) * TRACING_INTERVAL

/-- The in-memory feature record produced by the feature-assembly
collaborator (`data_processor.process_*`). Only the fields the driver reads
are modelled: `seqLen` is `feature_dict["aatype"].shape[-2]` (line 325) and
`msa` is the 2-D alignment tensor `feature_dict["msa"]` (line 344), rows by
columns. -/
structure FeatureRecord where
  seqLen : Nat
  msa : List (List Nat)
deriving Repr, DecidableEq

/-- Modelled from the spec: `pad_feature_dict_seq` (from the excluded
`openfold.utils.trace_utils`) pads the assembled record up to the rounded
sequence length before it is cached (spec section 4.3). -/
def pad_feature_dict_seq (fd : FeatureRecord) (seqlen : Nat) : FeatureRecord :=
  { fd with seqLen := seqlen }

/-- The per-inference processed feature record returned by
`feature_processor.process_features` (lines 334-340). `trueMsa` and
`extraMsa` are 3-D tensors [rows, columns, recycling iterations]; since
nested lists do not carry a rectangular shape, the size of the recycling
dimension (`msas.shape[-1]`, line 349) is carried explicitly. -/
structure ProcessedFeatures where
  trueMsa : List (List (List Nat))
  extraMsa : List (List (List Nat))
  numRecycle : Nat
deriving Repr, DecidableEq

/-- Modelled from the spec: the active model configuration as a map from
flattened leaf names to scalar values (the real object is an
`ml_collections`-style config from the excluded `openfold.config`). -/
def Config := String → String

/-- Modelled from the spec: `config.update_from_flattened_dict` (excluded
config library) overlays the entries of a flattened dictionary onto the
configuration with map-overwrite semantics, in order. -/
def update_from_flattened_dict (c : Config) (d : List (String × String)) : Config :=
  d.foldl (fun c kv => fun k => if k = kv.1 then kv.2 else c k) c

/-- Reading `config.data.predict.fixed_size` (line 223) from the flattened
leaf map. -/
def Config.fixed_size (c : Config) : Bool := c "data.predict.fixed_size" == "True"

/-- Oracles for the external collaborators the driver calls into. `Bool`
fields tell whether the corresponding call succeeds for a given input;
value fields give the returned data when it does. -/
structure Ext where
  /-- `EmbeddingGenerator().run` (line 132) succeeds for this chain tag. -/
  embedRunOk : Tag → Bool
  /-- `alignment_runner.run` (line 148) succeeds for this chain tag. -/
  alignRunOk : Tag → Bool
  /-- the `data_processor.process_*` feature-assembly call (lines 166-187)
  succeeds for this composite tag. -/
  processOk : Tag → Bool
  /-- the feature record the assembly collaborator returns on success. -/
  processFd : Tag → FeatureRecord
  /-- `feature_processor.process_features` (line 334) succeeds. -/
  processFeaturesOk : Tag → Bool
  /-- the processed feature record returned on success. -/
  processedFeatures : Tag → ProcessedFeatures
  /-- `trace_model_` (line 382) succeeds for (model index, rounded length). -/
  traceOk : Nat → Nat → Bool
  /-- `run_model` (line 387) succeeds for (model index, composite tag). -/
  runModelOk : Nat → Tag → Bool
  /-- `relax_protein` (line 417) succeeds for (model index, composite tag). -/
  relaxOk : Nat → Tag → Bool
  /-- number of (model, output_directory) pairs the generator
  `load_models_from_command_line` (lines 299-301) yields. -/
  numModels : Nat
  /-- the output directory yielded together with each model. -/
  modelOutputDir : Nat → String
  /-- the configuration returned by `model_config` (lines 206-210). -/
  baseConfig : Config
  /-- the flattened override dictionary parsed from
  `args.experiment_config_json` (lines 213-214). -/
  experimentDict : List (String × String)

/-- The command-line arguments the modelled control flow reads. -/
structure Args where
  output_dir : String
  config_preset : String
  use_precomputed_alignments : Option String
  use_single_seq_mode : Bool
  trace_model : Bool
  skip_relaxation : Bool
  save_outputs : Bool
  cif_output : Bool
  experiment_config_json : String
  /-- `os.getpid()`, used in the scratch FASTA path (lines 100, 161). -/
  pid : Nat
deriving Repr, DecidableEq

/-- Substring test, modelling Python's `"multimer" in args.config_preset`
(lines 111, 163, 226). -/
def strContains (pat s : String) : Bool := decide (pat.data <:+: s.data)

/-- Suffix test on character lists, modelling Python's `str.endswith`
(used by `list_files_with_extensions`, line 196). -/
def strEndsWith (s pat : String) : Bool := decide (pat.data <:+ s.data)

/-- Prefix test on character lists, modelling Python's `str.startswith`
(line 203). -/
def strStartsWith (s pat : String) : Bool := decide (pat.data <+: s.data)

/-- Modelling `fasta_file.split(".")[0]` (line 294): the characters before
the first dot (the whole name if it has no dot). -/
def fileStem (s : String) : String := String.mk (s.data.takeWhile (fun c => c ≠ '.'))

/-- The scratch FASTA path `os.path.join(args.output_dir,
f"tmp_{os.getpid()}.fasta")` (lines 100 and 161): derived from the process
id, not the target. -/
def tmp_fasta_path (args : Args) : String :=
  args.output_dir ++ "/tmp_" ++ toString args.pid ++ ".fasta"

/-- Observable events of one driver run, used to count collaborator
invocations and per-target outcomes. -/
inductive Ev
  /-- the driver entered the per-target `try` body for (model, tag). -/
  | attempt (model : Nat) (tag : Tag)
  /-- `alignment_runner.run` was invoked for a chain tag. -/
  | alignRunCall (tag : Tag)
  /-- the feature-assembly collaborator was invoked for a composite tag. -/
  | assembleCall (tag : Tag)
  /-- the tracing (ahead-of-time recompilation) trigger fired for
  (model, rounded length). -/
  | traceCall (model : Nat) (bucket : Nat)
  /-- `run_model` was invoked for (model, tag). -/
  | runModelCall (model : Nat) (tag : Tag)
  /-- the per-target body finished normally. -/
  | done (model : Nat) (tag : Tag)
  /-- the per-target body raised; the exception was caught at the
  per-target boundary (lines 459-463). -/
  | failed (model : Nat) (tag : Tag)
deriving Repr, DecidableEq

/-- The mutable state of one `main` invocation: the filesystem, the
`feature_dicts` cache (line 298), the function-local variable
`rounded_seqlen` (line 326; `none` while still unassigned), the per-model
`cur_tracing_interval` (line 304) and the event log. -/
structure RunState where
  fs : List String
  cache : List (Tag × FeatureRecord)
  rounded_seqlen : Option Nat
  curTracingInterval : Nat
  events : List Ev
deriving Repr, DecidableEq

/-- Append an event to the log. -/
def logEv (s : RunState) (e : Ev) : RunState := { s with events := s.events ++ [e] }

/-- Writing a file: the path becomes present (overwrite if it already was). -/
def fsWrite (s : RunState) (p : String) : RunState := { s with fs := s.fs.insert p }

/-- `os.remove`: deletes the path, raising `FileNotFoundError` when it is
absent. -/
def fsRemove (s : RunState) (p : String) : Except (String × RunState) RunState :=
  if p ∈ s.fs then .ok { s with fs := s.fs.erase p } else .error ("FileNotFoundError", s)

/-! ### get_msa_stats (lines 68-95) -/

/-- Row presence test for one chain slice (lines 85-86):
`~(msa == 21).all(dim=1)` — the row is present when not every position in
the slice equals the gap sentinel 21. -/
def rowPresent (chain : List Nat) : Bool := ! chain.all (fun x => x == 21)

/-- The paired/unpaired counting of lines 85-94 on already-split chain
slices: `pair = have_1 & have_2`, `unpair_i = have_i ^ pair`, then each
mask is summed. -/
def msaCounts (m1 m2 : List (List Nat)) : Nat × Nat × Nat :=
  let have1 := m1.map rowPresent
  let have2 := m2.map rowPresent
  let pair := List.zipWith (· && ·) have1 have2
  let unpair1 := List.zipWith Bool.xor have1 pair
  let unpair2 := List.zipWith Bool.xor have2 pair
  (pair.count true, unpair1.count true, unpair2.count true)

/-- The per-iteration body of `get_msa_stats` (lines 76-94) applied to one
2-D alignment slice: drop rows that are entirely 0 (line 76-77), split into
the two chain column ranges (lines 78-84, with the shape assertions of
lines 81 and 84 raising `AssertionError`), and count paired/unpaired rows. -/
def msaStatsSlice (batch0 : List (List Nat)) (l1 l2 : Nat) (if_homo : Bool) :
    Except String (Nat × Nat × Nat) :=
  let batch := batch0.filter (fun row => row.any (fun x => x != 0))
  let msa1 := batch.map (fun row => row.take l1)
  if if_homo then
    if batch.all (fun row => row.length == l1) then .ok (msaCounts msa1 msa1)
    else .error "AssertionError"
  else
    let msa2 := batch.map (fun row => row.drop l1)
    if msa2.all (fun row => row.length == l2) then .ok (msaCounts msa1 msa2)
    else .error "AssertionError"

/-- Selecting the 2-D slice `all_msa[:, :, i]` of a 3-D [rows, cols,
recycles] tensor. -/
def sliceIter (all_msa : List (List (List Nat))) (i : Nat) : List (List Nat) :=
  all_msa.map (fun row => row.map (fun cell => cell.getD i 0))

/-- get_msa_stats for a 3-D alignment tensor (the `prefix != "total_"`
branch, line 75): for every recycling iteration `i` in `range num_recycle`
the slice `all_msa[:, :, i]` is aggregated; the result is the list of
(paired, unpaired_chain_1, unpaired_chain_2) triples, one per iteration. -/
def get_msa_stats (all_msa : List (List (List Nat))) (l1 l2 num_recycle : Nat)
    (if_homo : Bool) : Except String (List (Nat × Nat × Nat)) :=
  (List.range num_recycle).mapM (fun i => msaStatsSlice (sliceIter all_msa i) l1 l2 if_homo)

/-- get_msa_stats for the 2-D total alignment tensor (the
`prefix == "total_"` branch, line 73): every iteration aggregates the whole
tensor. In the source this is the same Python function branching on the
string flag; the two tensor ranks need two Lean definitions. -/
def get_msa_stats_total (all_msa : List (List Nat)) (l1 l2 num_recycle : Nat)
    (if_homo : Bool) : Except String (List (Nat × Nat × Nat)) :=
  (List.range num_recycle).mapM (fun _ => msaStatsSlice all_msa l1 l2 if_homo)

/-! ### precompute_alignments (lines 98-153) -/

/-- One iteration of the `for tag, seq in zip(tags, seqs)` loop of
`precompute_alignments`: write the scratch FASTA (lines 100-102); when no
precomputed-alignment directory was supplied, build the template searcher
(excluded collaborator, lines 111-121), in single-sequence mode run the
embedding generator (line 132), then run the alignment runner (line 148);
finally `os.remove` the scratch file (line 153). A raising collaborator
skips the removal. -/
def alignOne (args : Args) (E : Ext) (tag : Tag) (s : RunState) :
    Except (String × RunState) RunState :=
  let s := fsWrite s (tmp_fasta_path args)
  if args.use_precomputed_alignments.isNone then
    if args.use_single_seq_mode && !(E.embedRunOk tag) then
      .error ("EmbeddingGenerator.run", s)
    else
      let s := logEv s (.alignRunCall tag)
      if E.alignRunOk tag then fsRemove s (tmp_fasta_path args)
      else .error ("AlignmentRunner.run", s)
  else fsRemove s (tmp_fasta_path args)

/-- precompute_alignments (lines 98-153): the loop over the target's
(chain tag, sequence) pairs. -/
def precompute_alignments (args : Args) (E : Ext) :
    List (Tag × String) → RunState → Except (String × RunState) RunState
  | [], s => .ok s
  | (tag, _seq) :: rest, s =>
    match alignOne args E tag s with
    | .error e => .error e
    | .ok s => precompute_alignments args E rest s

/-! ### generate_feature_dict (lines 160-192) -/

/-- generate_feature_dict (lines 160-192): write the scratch FASTA, invoke
the feature-assembly collaborator (`data_processor.process_fasta` /
`process_multiseq_fasta`; the three branches of lines 163-187 select
different entry points of the same excluded collaborator, modelled as one
oracle), then `os.remove` the scratch file (line 190). A raising
collaborator skips the removal. -/
def generate_feature_dict (args : Args) (E : Ext) (t : Target) (s : RunState) :
    Except (String × RunState) (FeatureRecord × RunState) :=
  let s := fsWrite s (tmp_fasta_path args)
  let s := logEv s (.assembleCall t.tag)
  if E.processOk t.tag then
    match fsRemove s (tmp_fasta_path args) with
    | .ok s => .ok (E.processFd t.tag, s)
    | .error e => .error e
  else .error ("data_processor.process_fasta", s)

/-! ### The per-target pipeline body (lines 306-458) -/

/-- Lines 318-332: look the composite tag up in the `feature_dicts` cache;
on a miss assemble the record, in tracing mode compute the rounded length
(assigning the function-local `rounded_seqlen`, line 326) and pad the
record, then insert it into the cache. -/
def getFeatures (args : Args) (E : Ext) (t : Target) (s : RunState) :
    Except (String × RunState) (FeatureRecord × RunState) :=
  match s.cache.lookup t.tag with
  | some fd => .ok (fd, s)
  | none =>
    match generate_feature_dict args E t s with
    | .error e => .error e
    | .ok (fd0, s) =>
      if args.trace_model then
        let rounded := round_up_seqlen fd0.seqLen
        let fd := pad_feature_dict_seq fd0 rounded
        let s := { s with rounded_seqlen := some rounded }
        .ok (fd, { s with cache := (t.tag, fd) :: s.cache })
      else
        .ok (fd0, { s with cache := (t.tag, fd0) :: s.cache })

/-- Lines 334-340: `feature_processor.process_features` plus device
placement (excluded collaborators). -/
def process_features_step (E : Ext) (t : Target) (s : RunState) :
    Except (String × RunState) (ProcessedFeatures × RunState) :=
  if E.processFeaturesOk t.tag then .ok (E.processedFeatures t.tag, s)
  else .error ("feature_processor.process_features", s)

/-- Lines 344-366: read `num_recycle` from the processed features, unpack
`seq_length_1, seq_length_2 = map(len, seqs)` (line 351, a `ValueError`
unless there are exactly two sequences), set `if_homo = False` (line 353)
and evaluate the three `get_msa_stats` calls of the `pd.concat`
(lines 359-366). -/
def msa_stats_step (t : Target) (feature_dict : FeatureRecord)
    (pf : ProcessedFeatures) (s : RunState) : Except (String × RunState) RunState :=
  let num_recycle := pf.numRecycle
  match t.seqs with
  | [s1, s2] =>
    let l1 := s1.length
    let l2 := s2.length
    match get_msa_stats_total feature_dict.msa l1 l2 num_recycle false with
    | .error e => .error (e, s)
    | .ok _ =>
      match get_msa_stats pf.trueMsa l1 l2 num_recycle false with
      | .error e => .error (e, s)
      | .ok _ =>
        match get_msa_stats pf.extraMsa l1 l2 num_recycle false with
        | .error e => .error (e, s)
        | .ok _ => .ok s
  | _ => .error ("ValueError: not enough values to unpack", s)

/-- Lines 378-385: in tracing mode read the function-local
`rounded_seqlen` (a `NameError` if it was never assigned) and recompile
when it strictly exceeds `cur_tracing_interval`; the interval is updated
only after `trace_model_` returns (line 385 follows line 382). -/
def trace_step (args : Args) (E : Ext) (m : Nat) (s : RunState) :
    Except (String × RunState) RunState :=
  if args.trace_model then
    match s.rounded_seqlen with
    | none => .error ("NameError: rounded_seqlen", s)
    | some rounded =>
      if s.curTracingInterval < rounded then
        let s := logEv s (.traceCall m rounded)
        if E.traceOk m rounded then .ok { s with curTracingInterval := rounded }
        else .error ("trace_model_", s)
      else .ok s
  else .ok s

/-- Line 387: `run_model`. -/
def run_model_step (E : Ext) (m : Nat) (t : Target) (s : RunState) :
    Except (String × RunState) RunState :=
  let s := logEv s (.runModelCall m t.tag)
  if E.runModelOk m t.tag then .ok s else .error ("run_model", s)

/-- Lines 393-412: `prep_output` (excluded collaborator) and the write of
the single unrelaxed structure file, `unrelaxed.cif` when `--cif_output`
else `unrelaxed.pdb`, under the final output directory. -/
def write_unrelaxed_step (args : Args) (final_output_dir : String) (s : RunState) :
    RunState :=
  let unrelaxed_file_suffix := if args.cif_output then "unrelaxed.cif" else "unrelaxed.pdb"
  fsWrite s (final_output_dir ++ "/" ++ unrelaxed_file_suffix)

/-- Lines 414-425: unless relaxation is skipped, call `relax_protein`.
Modelled from the spec: the excluded relaxation collaborator writes a
relaxed sibling of the unrelaxed artifact. -/
def relax_step (args : Args) (E : Ext) (m : Nat) (t : Target)
    (final_output_dir : String) (s : RunState) : Except (String × RunState) RunState :=
  if args.skip_relaxation then .ok s
  else if E.relaxOk m t.tag then
    .ok (fsWrite s (final_output_dir ++ "/" ++
      (if args.cif_output then "relaxed.cif" else "relaxed.pdb")))
  else .error ("relax_protein", s)

/-- Lines 427-458: when diagnostics are enabled, write the metrics file,
the statistics table and the raw alignment dump. -/
def save_outputs_step (args : Args) (final_output_dir : String) (s : RunState) :
    RunState :=
  if args.save_outputs then
    let s := fsWrite s (final_output_dir ++ "/analysis/metric_dict.pkl")
    let s := fsWrite s (final_output_dir ++ "/analysis/msa_stats.csv")
    fsWrite s (final_output_dir ++ "/tmp/raw_msa.pkl")
  else s

/-- Sequencing of two pipeline statements: a raise in the first skips the
second (Python statement sequencing under exceptions). -/
def andThen (x : Except (String × RunState) RunState)
    (f : RunState → Except (String × RunState) RunState) :
    Except (String × RunState) RunState :=
  match x with
  | .error e => .error e
  | .ok s => f s

/-- Sequencing after a value-returning pipeline statement. -/
def andThenA {α : Type} (x : Except (String × RunState) (α × RunState))
    (f : α → RunState → Except (String × RunState) RunState) :
    Except (String × RunState) RunState :=
  match x with
  | .error e => .error e
  | .ok (a, s) => f a s

/-- The tail of the per-target body after the tracing trigger: `run_model`
(line 387), the unrelaxed-structure write (lines 393-412), optional
relaxation (lines 414-425) and optional diagnostics (lines 427-458). -/
def tail_steps (args : Args) (E : Ext) (m : Nat) (t : Target)
    (final_output_dir : String) (s : RunState) : Except (String × RunState) RunState :=
  andThen (run_model_step E m t s) (fun s =>
    let s := write_unrelaxed_step args final_output_dir s
    andThen (relax_step args E m t final_output_dir s) (fun s =>
      .ok (save_outputs_step args final_output_dir s)))

/-- The body of the per-target `try` block (lines 306-458), composing the
stages in source order. -/
def targetBody (args : Args) (E : Ext) (m : Nat) (outputDirectory : String)
    (t : Target) (s : RunState) : Except (String × RunState) RunState :=
  let final_output_dir := outputDirectory ++ "/" ++ args.config_preset ++ "/" ++ t.fileName
  andThen (precompute_alignments args E (t.tags.zip t.seqs) s) (fun s =>
  andThenA (getFeatures args E t s) (fun feature_dict s =>
  andThenA (process_features_step E t s) (fun pf s =>
  andThen (msa_stats_step t feature_dict pf s) (fun s =>
  andThen (trace_step args E m s) (fun s =>
  tail_steps args E m t final_output_dir s)))))

/-- The per-target exception boundary (lines 459-463): a normal return is
logged as completion, an exception is caught and logged as a failure. -/
def targetBoundary (m : Nat) (g : Tag) (x : Except (String × RunState) RunState) :
    RunState :=
  match x with
  | .ok s => logEv s (.done m g)
  | .error (_, s) => logEv s (.failed m g)

/-- One iteration of the inner target loop: enter the `try` body; any
exception is caught at the per-target boundary (lines 459-463), logged, and
the loop continues. -/
def processTarget (args : Args) (E : Ext) (m : Nat) (outputDirectory : String)
    (t : Target) (s : RunState) : RunState :=
  targetBoundary m t.tag
    (targetBody args E m outputDirectory t (logEv s (.attempt m t.tag)))

/-- One iteration of the outer model loop (lines 303-463):
`cur_tracing_interval = 0` (line 304), then the target loop. -/
def modelRun (args : Args) (E : Ext) (targets : List Target) (s : RunState)
    (m : Nat) : RunState :=
  targets.foldl (fun s t => processTarget args E m (E.modelOutputDir m) t s)
    { s with curTracingInterval := 0 }

/-- The full double loop over loaded models and sorted targets. -/
def runModels (args : Args) (E : Ext) (targets : List Target) (numModels : Nat)
    (s0 : RunState) : RunState :=
  (List.range numModels).foldl (modelRun args E targets) s0

/-! ### Target discovery, ordering, configuration, and main (lines 199-463) -/

/-- Sum of sequence lengths across a target's chains — the sort key
`seq_sort_fn` of line 296. -/
def seq_sort_fn (t : Target) : Nat := (t.seqs.map String.length).sum

/-- Lines 272-294: scan the parsed FASTA files (a pair of file name and
parsed (tag, sequence) list; reading and `parse_fasta` are excluded
collaborators), keep `.fasta`/`.fa` files, skip multi-sequence files when
multimer mode is off, and build the targets in file order. -/
def discoverTargets (is_multimer : Bool)
    (files : List (String × List (Tag × String))) : List Target :=
  (files.filter (fun f => strEndsWith f.1 ".fasta" || strEndsWith f.1 ".fa")).foldr
    (fun f acc =>
      let tags := f.2.map Prod.fst
      let seqs := f.2.map Prod.snd
      if !is_multimer && tags.length != 1 then acc
      else
        { tag := String.intercalate "-" tags, tags := tags, seqs := seqs,
          fileName := fileStem f.1 } :: acc) []

/-- Line 297: `sorted(zip(tag_list, seq_list, file_list), key=seq_sort_fn)`
— Python's stable ascending sort by key, modelled by the stable
insertion sort. -/
def sortTargets (ts : List Target) : List Target :=
  ts.insertionSort (fun a b => seq_sort_fn a ≤ seq_sort_fn b)

/-- Lines 212-220: the experiment-config JSON overlay, applied twice in
sequence with identical inputs. -/
def activeConfig (args : Args) (E : Ext) : Config :=
  let config := E.baseConfig
  let config :=
    if args.experiment_config_json = "" then config
    else update_from_flattened_dict config E.experimentDict
  if args.experiment_config_json = "" then config
  else update_from_flattened_dict config E.experimentDict

/-- The initial run state: empty filesystem view, empty `feature_dicts`,
`rounded_seqlen` unassigned, empty log. -/
def initRunState : RunState :=
  { fs := [], cache := [], rounded_seqlen := none, curTracingInterval := 0, events := [] }

/-- main (lines 199-463): force single-sequence mode for `seq*` presets
(lines 203-204), build the configuration with the double overlay
(lines 206-220), validate that tracing has fixed-size mode (lines 222-224,
the only raise outside the per-target boundary), then discover, sort and
process the targets. -/
def mainRun (args0 : Args) (E : Ext)
    (fastaFiles : List (String × List (Tag × String))) : Except String RunState :=
  let args :=
    if strStartsWith args0.config_preset "seq" then
      { args0 with use_single_seq_mode := true }
    else args0
  let config := activeConfig args E
  if args.trace_model && !(Config.fixed_size config) then
    .error "ValueError: Tracing requires that fixed_size mode be enabled in the config"
  else
    let is_multimer := strContains "multimer" args.config_preset
    let targets := discoverTargets is_multimer fastaFiles
    let sorted_targets := sortTargets targets
    .ok (runModels args E sorted_targets E.numModels initRunState)

/-! ### Claim-side definitions (written from the claims' words, for
comparison against the source embedding) and concrete inputs -/

/-- The C6 claim's row-retention rule: drop rows that are entirely the
padding sentinel 0. -/
def keptRows (batch : List (List Nat)) : List (List Nat) :=
  batch.filter (fun row => ! row.all (fun x => x == 0))

/-- The C6 claim's presence test for chain 1: the row is present unless all
of its positions in chain 1's column range (the first `l1` columns) equal
the gap sentinel 21. -/
def presentChain1 (row : List Nat) (l1 : Nat) : Bool :=
  ! (row.take l1).all (fun x => x == 21)

/-- The C6 claim's presence test for chain 2: the row is present unless all
of its positions in chain 2's column range (columns `l1` to `l1 + l2`)
equal the gap sentinel 21. -/
def presentChain2 (row : List Nat) (l1 l2 : Nat) : Bool :=
  ! ((row.drop l1).take l2).all (fun x => x == 21)

/-- The C6 claim's reported triple for one iteration: rows present in both
chains, rows present only in chain 1, rows present only in chain 2, among
the retained rows. -/
def claimCounts (batch : List (List Nat)) (l1 l2 : Nat) : Nat × Nat × Nat :=
  let kept := keptRows batch
  (kept.countP (fun r => presentChain1 r l1 && presentChain2 r l1 l2),
   kept.countP (fun r => presentChain1 r l1 && ! presentChain2 r l1 l2),
   kept.countP (fun r => ! presentChain1 r l1 && presentChain2 r l1 l2))

/-- Arguments for the C1 end-to-end scenario: single model, relaxation
skipped, diagnostics disabled, precomputed alignments supplied, PDB
output, non-multimer preset. -/
def c1Args : Args :=
  { output_dir := "out", config_preset := "model_1",
    use_precomputed_alignments := some "aln", use_single_seq_mode := false,
    trace_model := false, skip_relaxation := true, save_outputs := false,
    cif_output := false, experiment_config_json := "", pid := 7 }

/-- Collaborator oracles for the C1 scenario: one loaded model and every
external call succeeding. -/
def c1Ext : Ext :=
  { embedRunOk := fun _ => true, alignRunOk := fun _ => true,
    processOk := fun _ => true,
    processFd := fun _ => { seqLen := 50, msa := [] },
    processFeaturesOk := fun _ => true,
    processedFeatures := fun _ => { trueMsa := [], extraMsa := [], numRecycle := 0 },
    traceOk := fun _ _ => true, runModelOk := fun _ _ => true,
    relaxOk := fun _ _ => true, numModels := 1,
    modelOutputDir := fun _ => "out",
    baseConfig := fun _ => "", experimentDict := [] }

/-- A 50-residue single-chain sequence. -/
def c1Seq : String := String.mk (List.replicate 50 'M')

/-- The C1 batch input: one FASTA file holding one 50-residue sequence. -/
def c1Files : List (String × List (Tag × String)) := [("target1.fasta", [("T", c1Seq)])]

/-- Arguments for the C4 scenario: no precomputed alignments, so the
external alignment runner is invoked. -/
def c4Args : Args :=
  { output_dir := "out", config_preset := "model_1",
    use_precomputed_alignments := none, use_single_seq_mode := false,
    trace_model := false, skip_relaxation := true, save_outputs := false,
    cif_output := false, experiment_config_json := "", pid := 7 }

/-- C4 oracles with a failing alignment runner. -/
def c4ExtAlign : Ext :=
  { embedRunOk := fun _ => true, alignRunOk := fun _ => false,
    processOk := fun _ => true,
    processFd := fun _ => { seqLen := 50, msa := [] },
    processFeaturesOk := fun _ => true,
    processedFeatures := fun _ => { trueMsa := [], extraMsa := [], numRecycle := 0 },
    traceOk := fun _ _ => true, runModelOk := fun _ _ => true,
    relaxOk := fun _ _ => true, numModels := 1,
    modelOutputDir := fun _ => "out",
    baseConfig := fun _ => "", experimentDict := [] }

/-- C4 oracles with a failing feature processor. -/
def c4ExtFeat : Ext :=
  { c4ExtAlign with alignRunOk := fun _ => true, processOk := fun _ => false }

/-- A two-chain target used by the C4 counterexample. -/
def c4Target : Target :=
  { tag := "A-B", tags := ["A", "B"], seqs := ["AA", "BB"], fileName := "f1" }

/-- C4 oracles with every external call succeeding. -/
def c4ExtOk : Ext :=
  { c4ExtAlign with alignRunOk := fun _ => true }

/-- Concrete arguments for the C9 witness. -/
def c9Args : Args :=
  { output_dir := "out", config_preset := "model_1",
    use_precomputed_alignments := none, use_single_seq_mode := false,
    trace_model := false, skip_relaxation := true, save_outputs := false,
    cif_output := false, experiment_config_json := "overrides.json", pid := 7 }

/-- Concrete oracles for the C9 witness: a two-entry override dictionary. -/
def c9Ext : Ext :=
  { embedRunOk := fun _ => true, alignRunOk := fun _ => true,
    processOk := fun _ => true,
    processFd := fun _ => { seqLen := 50, msa := [] },
    processFeaturesOk := fun _ => true,
    processedFeatures := fun _ => { trueMsa := [], extraMsa := [], numRecycle := 0 },
    traceOk := fun _ _ => true, runModelOk := fun _ _ => true,
    relaxOk := fun _ _ => true, numModels := 1,
    modelOutputDir := fun _ => "out",
    baseConfig := fun _ => "base",
    experimentDict := [("globals.chunk_size", "4"), ("data.common.max_recycling_iters", "10")] }

/-- The planted C6 tensor: five retained rows over four columns (two per
chain) and one recycling iteration; three rows present in both chains, two
rows present only in chain 1. -/
def c6Tensor : List (List (List Nat)) :=
  [[[5], [5], [5], [5]],
   [[5], [5], [5], [5]],
   [[5], [5], [5], [5]],
   [[5], [5], [21], [21]],
   [[5], [5], [21], [21]]]

/-- The state a step ends in, whether it returned or raised. -/
def resSt : Except (String × RunState) RunState → RunState
  | .ok s => s
  | .error (_, s) => s

/-- The state a value-returning step ends in. -/
def resStA {α : Type} : Except (String × RunState) (α × RunState) → RunState
  | .ok (_, s) => s
  | .error (_, s) => s

/-- Recognize the per-target entry marker. -/
def isAttemptEv : Ev → Bool
  | .attempt _ _ => true
  | _ => false

/-- Recognize the per-target terminal markers (caught failure or normal
completion). -/
def isTerminalEv : Ev → Bool
  | .done _ _ => true
  | .failed _ _ => true
  | _ => false

/-- A counting predicate that ignores every event the `try` body can log
(it may only count the boundary markers `attempt` / `done` / `failed`). -/
def wrapperOnly (p : Ev → Bool) : Prop :=
  (∀ t, p (.alignRunCall t) = false) ∧ (∀ t, p (.assembleCall t) = false) ∧
  (∀ m b, p (.traceCall m b) = false) ∧ (∀ m t, p (.runModelCall m t) = false)

/-- Recognize tracing-trigger events. -/
def isTraceEv : Ev → Bool
  | .traceCall _ _ => true
  | _ => false

/-- Recognize tracing-trigger events of one given model. -/
def isTraceM (m : Nat) : Ev → Bool
  | .traceCall m' _ => m' == m
  | _ => false

/-- Recognize feature-assembly invocations. -/
def isAssembleEv : Ev → Bool
  | .assembleCall _ => true
  | _ => false

/-- Recognize feature-assembly invocations for one given composite tag. -/
def isAssembleTag (g : Tag) : Ev → Bool
  | .assembleCall g' => g' == g
  | _ => false

/-- Recognize normal per-target completions. -/
def isDoneEv : Ev → Bool
  | .done _ _ => true
  | _ => false

/-- The compilation bucket of a target: the rounded length of the feature
record the assembly collaborator returns for its tag (lines 325-326). -/
def bucket (E : Ext) (t : Target) : Nat :=
  round_up_seqlen (E.processFd t.tag).seqLen

/-- The strict rises of a bucket sequence above a starting watermark: the
buckets at which `b > cur` holds with `cur` the running maximum — exactly
the recompilation points of a model whose every target is freshly
assembled. -/
def risesFrom (cur : Nat) : List Nat → List Nat
  | [] => []
  | b :: bs => if cur < b then b :: risesFrom b bs else risesFrom cur bs

/-- Collaborator oracles that never raise in the pipeline stages up to and
including the tracing trigger: embedding, alignment search, feature
assembly, feature processing (returning a zero-size recycling dimension, so
the three statistics calls trivially succeed) and tracing. `run_model` and
`relax_protein` stay unconstrained. -/
structure BenignCore (E : Ext) : Prop where
  embed : ∀ t, E.embedRunOk t = true
  align : ∀ t, E.alignRunOk t = true
  assemble : ∀ t, E.processOk t = true
  features : ∀ t, E.processFeaturesOk t = true
  recycle : ∀ t, (E.processedFeatures t).numRecycle = 0
  traces : ∀ m b, E.traceOk m b = true

/-- The stale `rounded_seqlen` after a model pass whose freshly-assembled
targets had the given buckets: the last bucket, or the incoming value when
no target was assembled. -/
def lastStale (s0 : Option Nat) : List Nat → Option Nat
  | [] => s0
  | b :: bs => lastStale (some b) bs

/-- A placeholder target, used only as the default of positional access in
the claim-side trigger rule. -/
def dummyTarget : Target := { tag := "", tags := [], seqs := [], fileName := "" }

/-- The driver's execution prefix: the state after `m` full model passes
followed by model `m` processing the first `j` targets of the worklist
(with model `m`'s freshly reset `cur_tracing_interval`). -/
def runPartial (args : Args) (E : Ext) (ts : List Target) (m j : Nat) : RunState :=
  (ts.take j).foldl (fun s t => processTarget args E m (E.modelOutputDir m) t s)
    { (List.range m).foldl (modelRun args E ts) initRunState with curTracingInterval := 0 }

/-- Number of tracing-trigger firings in the log. -/
def traceCount (s : RunState) : Nat := s.events.countP isTraceEv

/-- Whether the code's recompilation trigger fired while model `m`
processed target `j`: the trigger count grew across that step. -/
def codeFired (args : Args) (E : Ext) (ts : List Target) (m j : Nat) : Bool :=
  decide (traceCount (runPartial args E ts m j) < traceCount (runPartial args E ts m (j + 1)))

/-- The C2 claim's trigger rule, from the claim's words: the trigger fires
iff the current target's rounded sequence length strictly exceeds the
largest bucket recorded so far for that model (the state starts fresh per
model, so only that model's earlier targets count). -/
def specFired (E : Ext) (ts : List Target) (j : Nat) : Bool :=
  decide (((ts.take j).map (bucket E)).foldl max 0 < bucket E (ts.getD j dummyTarget))

/-- The C2 claim as stated, for a run over `n` loaded models: at every
(model, target position) the code's trigger fires exactly per the claim's
rule. -/
def specC2 (args : Args) (E : Ext) (ts : List Target) (n : Nat) : Prop :=
  ∀ m < n, ∀ j < ts.length, codeFired args E ts m j = specFired E ts j

/-- Arguments for the C2 scenario: tracing enabled, precomputed
alignments, relaxation skipped, diagnostics off. -/
def c2Args : Args :=
  { output_dir := "out", config_preset := "model_1",
    use_precomputed_alignments := some "aln", use_single_seq_mode := false,
    trace_model := true, skip_relaxation := true, save_outputs := false,
    cif_output := false, experiment_config_json := "", pid := 7 }

/-- Feature records for the C2 scenario: 40 residues for the first target
(bucket 50), 60 for the second (bucket 100). -/
def c2Fd (g : Tag) : FeatureRecord :=
  { seqLen := if g = "A-B" then 40 else 60, msa := [] }

/-- Collaborators for the C2 scenario: two loaded models, everything
succeeding, zero recycling iterations. -/
def c2Ext : Ext :=
  { embedRunOk := fun _ => true, alignRunOk := fun _ => true,
    processOk := fun _ => true, processFd := c2Fd,
    processFeaturesOk := fun _ => true,
    processedFeatures := fun _ => { trueMsa := [], extraMsa := [], numRecycle := 0 },
    traceOk := fun _ _ => true, runModelOk := fun _ _ => true,
    relaxOk := fun _ _ => true, numModels := 2,
    modelOutputDir := fun _ => "out",
    baseConfig := fun _ => "", experimentDict := [] }

/-- First C2 target: two chains of total length 40. -/
def c2TargetAB : Target :=
  { tag := "A-B", tags := ["A", "B"], seqs := ["AAAA", "BBBB"], fileName := "f1" }

/-- Second C2 target: two chains of total length 60. -/
def c2TargetCD : Target :=
  { tag := "C-D", tags := ["C", "D"], seqs := ["CCCCC", "DDDDD"], fileName := "f2" }

/-- The C2 worklist, ascending by total length. -/
def c2Targets : List Target := [c2TargetAB, c2TargetCD]

/-- Collaborators for the C3 witness: two loaded models, everything
succeeding. -/
def c3Ext : Ext :=
  { embedRunOk := fun _ => true, alignRunOk := fun _ => true,
    processOk := fun _ => true,
    processFd := fun _ => { seqLen := 40, msa := [] },
    processFeaturesOk := fun _ => true,
    processedFeatures := fun _ => { trueMsa := [], extraMsa := [], numRecycle := 0 },
    traceOk := fun _ _ => true, runModelOk := fun _ _ => true,
    relaxOk := fun _ _ => true, numModels := 2,
    modelOutputDir := fun _ => "out",
    baseConfig := fun _ => "", experimentDict := [] }

/-- Arguments for the C3 witness: tracing disabled. -/
def c3Args : Args :=
  { output_dir := "out", config_preset := "model_1",
    use_precomputed_alignments := some "aln", use_single_seq_mode := false,
    trace_model := false, skip_relaxation := true, save_outputs := false,
    cif_output := false, experiment_config_json := "", pid := 7 }

/-- C3 witness targets. -/
def c3Targets : List Target :=
  [{ tag := "A-B", tags := ["A", "B"], seqs := ["AA", "BB"], fileName := "f1" },
   { tag := "C-D", tags := ["C", "D"], seqs := ["CCC", "DDD"], fileName := "f2" }]

/-- Collaborators for the C10 witness: like the C3 ones but with
`run_model` failing for every model and target. -/
def c10Ext : Ext :=
  { embedRunOk := fun _ => true, alignRunOk := fun _ => true,
    processOk := fun _ => true,
    processFd := fun _ => { seqLen := 40, msa := [] },
    processFeaturesOk := fun _ => true,
    processedFeatures := fun _ => { trueMsa := [], extraMsa := [], numRecycle := 0 },
    traceOk := fun _ _ => true, runModelOk := fun _ _ => false,
    relaxOk := fun _ _ => true, numModels := 2,
    modelOutputDir := fun _ => "out",
    baseConfig := fun _ => "", experimentDict := [] }

/-! ### Helper lemmas -/

theorem any_ne_zero_eq_not_all_eq_zero (l : List Nat) :
    (l.any (fun x => x != 0)) = ! l.all (fun x => x == 0) := by
  induction l with
  | nil => rfl
  | cons a l ih =>
    simp only [List.any_cons, List.all_cons, Bool.not_and, bne] at ih ⊢
    rw [ih]

theorem mapM_ok_of_forall {α β : Type} (f : α → Except String β) (g : α → β)
    (l : List α) (h : ∀ a ∈ l, f a = .ok (g a)) : l.mapM f = .ok (l.map g) := by
  induction l with
  | nil => rfl
  | cons a l ih =>
    have ha := h a (by simp)
    have ih' := ih (fun a ha' => h a (by simp [ha']))
    simp only [List.mapM_cons, List.map_cons, ha, ih']
    rfl

theorem msaCounts_map {α : Type} (l : List α) (f g : α → List Nat) :
    msaCounts (l.map f) (l.map g) =
      (l.countP (fun r => rowPresent (f r) && rowPresent (g r)),
       l.countP (fun r => rowPresent (f r) && ! rowPresent (g r)),
       l.countP (fun r => ! rowPresent (f r) && rowPresent (g r))) := by
  induction l with
  | nil => rfl
  | cons a l ih =>
    simp only [msaCounts, List.map_cons, List.zipWith_cons_cons, List.count_cons,
      List.countP_cons] at ih ⊢
    cases hfa : rowPresent (f a) <;> cases hga : rowPresent (g a) <;>
      simp_all [msaCounts]

theorem update_from_flattened_dict_apply (d : List (String × String)) (c : Config)
    (k : String) :
    update_from_flattened_dict c d k =
      (((d.filter (fun kv => kv.1 == k)).getLast?).map Prod.snd).getD (c k) := by
  induction d generalizing c with
  | nil => rfl
  | cons kv d ih =>
    show update_from_flattened_dict (fun k' => if k' = kv.1 then kv.2 else c k') d k = _
    rw [ih]
    by_cases hk : kv.1 = k
    · simp only [List.filter_cons, hk, beq_self_eq_true, if_pos trivial]
      cases hfd : d.filter (fun kv' => kv'.1 == k) with
      | nil => simp [hfd, hk]
      | cons b l =>
        cases hgl : (b :: l).getLast? with
        | none => simp [List.getLast?_eq_none_iff] at hgl
        | some x => simp [hfd, List.getLast?_cons_cons, hgl]
    · have : (kv.1 == k) = false := by simpa using hk
      simp only [List.filter_cons, this, if_neg hk]
      have : (if k = kv.1 then kv.2 else c k) = c k := by
        rw [if_neg (fun h => hk h.symm)]
      simp [this]

theorem msaStatsSlice_spec (batch : List (List Nat)) (l1 l2 : Nat)
    (hw : ∀ row ∈ batch, row.length = l1 + l2) :
    msaStatsSlice batch l1 l2 false = .ok (claimCounts batch l1 l2) := by
  have hfilter : batch.filter (fun row => row.any (fun x => x != 0)) = keptRows batch := by
    unfold keptRows
    congr 1
    funext row
    exact any_ne_zero_eq_not_all_eq_zero row
  have hkw : ∀ row ∈ keptRows batch, row.length = l1 + l2 := fun row hr =>
    hw row (List.mem_of_mem_filter hr)
  have hassert : ((keptRows batch).map (fun row => row.drop l1)).all
      (fun row => row.length == l2) = true := by
    simp only [List.all_map, List.all_eq_true, Function.comp]
    intro row hr
    simp [List.length_drop, hkw row hr]
  unfold msaStatsSlice
  rw [hfilter]
  simp only [Bool.false_eq_true, if_false, hassert, if_true, msaCounts_map]
  unfold claimCounts
  have h1 : ∀ r ∈ keptRows batch, rowPresent (r.take l1) = presentChain1 r l1 :=
    fun r _ => rfl
  have h2 : ∀ r ∈ keptRows batch, rowPresent (r.drop l1) = presentChain2 r l1 l2 := by
    intro r hr
    unfold rowPresent presentChain2
    rw [List.take_of_length_le (by simp [List.length_drop, hkw r hr])]
  refine congrArg Except.ok ?_
  refine congrArg₂ Prod.mk ?_ (congrArg₂ Prod.mk ?_ ?_) <;>
    (apply List.countP_congr; intro r hr; rw [h1 r hr, h2 r hr])

theorem alignOne_ok_fs (args : Args) (E : Ext) (tag : Tag) (s : RunState)
    (hno : tmp_fasta_path args ∉ s.fs) (s' : RunState)
    (h : alignOne args E tag s = .ok s') : s'.fs = s.fs := by
  unfold alignOne fsWrite logEv fsRemove at h
  simp only [List.insert_of_not_mem hno] at h
  split_ifs at h <;> (try simp_all [List.erase_cons_head]) <;>
    first
      | rfl
      | (cases h; rfl)
      | (obtain ⟨h1, h2⟩ := h; cases h2; rfl)

theorem precompute_alignments_ok_fs (args : Args) (E : Ext)
    (chains : List (Tag × String)) (s s' : RunState)
    (hno : tmp_fasta_path args ∉ s.fs)
    (h : precompute_alignments args E chains s = .ok s') : s'.fs = s.fs := by
  induction chains generalizing s with
  | nil =>
    unfold precompute_alignments at h
    cases h
    rfl
  | cons c rest ih =>
    obtain ⟨tag, sq⟩ := c
    unfold precompute_alignments at h
    cases hc : alignOne args E tag s with
    | error e => rw [hc] at h; cases h
    | ok s1 =>
      rw [hc] at h
      have hfs := alignOne_ok_fs args E tag s hno s1 hc
      exact (ih s1 (hfs ▸ hno) h).trans hfs

theorem generate_feature_dict_ok_fs (args : Args) (E : Ext) (t : Target)
    (s : RunState) (hno : tmp_fasta_path args ∉ s.fs) (fd : FeatureRecord)
    (s' : RunState) (h : generate_feature_dict args E t s = .ok (fd, s')) :
    s'.fs = s.fs := by
  unfold generate_feature_dict fsWrite logEv fsRemove at h
  simp only [List.insert_of_not_mem hno] at h
  split_ifs at h <;> (try simp_all [List.erase_cons_head]) <;>
    first
      | rfl
      | (cases h; rfl)
      | (obtain ⟨h1, h2⟩ := h; cases h2; rfl)

theorem alignOne_countP (args : Args) (E : Ext) (tag : Tag) (s : RunState)
    (p : Ev → Bool) (hw : wrapperOnly p) :
    (resSt (alignOne args E tag s)).events.countP p = s.events.countP p := by
  obtain ⟨h1, h2, h3, h4⟩ := hw
  unfold alignOne fsWrite logEv fsRemove
  split_ifs <;> simp [resSt, List.countP_append, List.countP_cons, h1]

theorem precompute_alignments_countP (args : Args) (E : Ext)
    (chains : List (Tag × String)) (s : RunState) (p : Ev → Bool)
    (hw : wrapperOnly p) :
    (resSt (precompute_alignments args E chains s)).events.countP p
      = s.events.countP p := by
  induction chains generalizing s with
  | nil => rfl
  | cons c rest ih =>
    obtain ⟨tag, sq⟩ := c
    show (resSt (match alignOne args E tag s with
      | .error e => .error e
      | .ok s => precompute_alignments args E rest s)).events.countP p = _
    cases hc : alignOne args E tag s with
    | error e =>
      have := alignOne_countP args E tag s p hw
      rw [hc] at this
      exact this
    | ok s1 =>
      have h1 := alignOne_countP args E tag s p hw
      rw [hc] at h1
      exact (ih s1).trans h1

theorem generate_feature_dict_countP (args : Args) (E : Ext) (t : Target)
    (s : RunState) (p : Ev → Bool) (hw : wrapperOnly p) :
    (resStA (generate_feature_dict args E t s)).events.countP p
      = s.events.countP p := by
  obtain ⟨h1, h2, h3, h4⟩ := hw
  unfold generate_feature_dict fsWrite logEv fsRemove
  split_ifs <;> simp [resStA, List.countP_append, List.countP_cons, h2]

theorem getFeatures_countP (args : Args) (E : Ext) (t : Target) (s : RunState)
    (p : Ev → Bool) (hw : wrapperOnly p) :
    (resStA (getFeatures args E t s)).events.countP p = s.events.countP p := by
  unfold getFeatures
  cases s.cache.lookup t.tag with
  | some fd => rfl
  | none =>
    cases hg : generate_feature_dict args E t s with
    | error e =>
      have := generate_feature_dict_countP args E t s p hw
      rw [hg] at this
      exact this
    | ok v =>
      have := generate_feature_dict_countP args E t s p hw
      rw [hg] at this
      obtain ⟨fd0, s1⟩ := v
      simp only [resStA] at this ⊢
      split_ifs <;> simpa using this

theorem msa_stats_step_resSt (t : Target) (fd : FeatureRecord)
    (pf : ProcessedFeatures) (s : RunState) :
    resSt (msa_stats_step t fd pf s) = s := by
  simp only [msa_stats_step]
  repeat' split
  all_goals rfl

theorem trace_step_countP (args : Args) (E : Ext) (m : Nat) (s : RunState)
    (p : Ev → Bool) (hw : wrapperOnly p) :
    (resSt (trace_step args E m s)).events.countP p = s.events.countP p := by
  obtain ⟨h1, h2, h3, h4⟩ := hw
  unfold trace_step logEv
  repeat' split
  all_goals simp [resSt, List.countP_append, List.countP_cons, h3]

theorem run_model_step_countP (E : Ext) (m : Nat) (t : Target) (s : RunState)
    (p : Ev → Bool) (hw : wrapperOnly p) :
    (resSt (run_model_step E m t s)).events.countP p = s.events.countP p := by
  obtain ⟨h1, h2, h3, h4⟩ := hw
  unfold run_model_step logEv
  split_ifs <;> simp [resSt, List.countP_append, List.countP_cons, h4]

theorem relax_step_resSt_events (args : Args) (E : Ext) (m : Nat) (t : Target)
    (dir : String) (s : RunState) :
    (resSt (relax_step args E m t dir s)).events = s.events := by
  unfold relax_step fsWrite
  split_ifs <;> rfl

theorem andThen_countP (x : Except (String × RunState) RunState)
    (f : RunState → Except (String × RunState) RunState) (p : Ev → Bool)
    (hf : ∀ s, (resSt (f s)).events.countP p = s.events.countP p) :
    (resSt (andThen x f)).events.countP p = (resSt x).events.countP p := by
  cases x with
  | error e => rfl
  | ok s => exact hf s

theorem andThenA_countP {α : Type} (x : Except (String × RunState) (α × RunState))
    (f : α → RunState → Except (String × RunState) RunState) (p : Ev → Bool)
    (hf : ∀ a s, (resSt (f a s)).events.countP p = s.events.countP p) :
    (resSt (andThenA x f)).events.countP p = (resStA x).events.countP p := by
  cases x with
  | error e => rfl
  | ok v => exact hf v.1 v.2

theorem tail_steps_countP (args : Args) (E : Ext) (m : Nat) (t : Target)
    (fdir : String) (s : RunState) (p : Ev → Bool) (hw : wrapperOnly p) :
    (resSt (tail_steps args E m t fdir s)).events.countP p = s.events.countP p := by
  unfold tail_steps
  refine (andThen_countP _ _ p ?_).trans (run_model_step_countP E m t s p hw)
  intro s6
  have hwrite : (write_unrelaxed_step args fdir s6).events = s6.events := rfl
  refine (andThen_countP _ _ p ?_).trans ?_
  swap
  · rw [show (resSt (relax_step args E m t fdir
        (write_unrelaxed_step args fdir s6))).events = s6.events from
        (relax_step_resSt_events args E m t _ _).trans hwrite]
  intro s7
  show (save_outputs_step args fdir s7).events.countP p = _
  have hsave : (save_outputs_step args fdir s7).events = s7.events := by
    unfold save_outputs_step fsWrite
    split_ifs <;> rfl
  rw [hsave]

theorem targetBody_countP (args : Args) (E : Ext) (m : Nat) (od : String)
    (t : Target) (s : RunState) (p : Ev → Bool) (hw : wrapperOnly p) :
    (resSt (targetBody args E m od t s)).events.countP p = s.events.countP p := by
  unfold targetBody
  refine (andThen_countP _ _ p ?_).trans
    (precompute_alignments_countP args E (t.tags.zip t.seqs) s p hw)
  intro s1
  refine (andThenA_countP _ _ p ?_).trans (getFeatures_countP args E t s1 p hw)
  intro fd s2
  refine (andThenA_countP _ _ p ?_).trans ?_
  swap
  · unfold process_features_step
    split_ifs <;> rfl
  intro pf s3
  refine (andThen_countP _ _ p ?_).trans
    (congrArg (List.countP p) (congrArg RunState.events (msa_stats_step_resSt t fd pf s3)))
  intro s4
  refine (andThen_countP _ _ p ?_).trans (trace_step_countP args E m s4 p hw)
  intro s5
  exact tail_steps_countP args E m t _ s5 p hw

theorem processTarget_countP (args : Args) (E : Ext) (m : Nat) (od : String)
    (t : Target) (s : RunState) (p : Ev → Bool) (hw : wrapperOnly p)
    (hterm : ∀ m' t', p (.done m' t') = p (.failed m' t')) :
    (processTarget args E m od t s).events.countP p
      = s.events.countP p + (if p (.attempt m t.tag) then 1 else 0)
        + (if p (.done m t.tag) then 1 else 0) := by
  simp only [processTarget, targetBoundary]
  have hb := targetBody_countP args E m od t (logEv s (.attempt m t.tag)) p hw
  cases h : targetBody args E m od t (logEv s (.attempt m t.tag)) with
  | ok s1 =>
    rw [h] at hb
    simp only [resSt] at hb
    simp [logEv, List.countP_append, List.countP_cons, hb]
  | error e =>
    rw [h] at hb
    simp only [resSt] at hb
    simp [logEv, List.countP_append, List.countP_cons, hb, ← hterm m t.tag]

theorem modelRun_attempts (args : Args) (E : Ext) (targets : List Target)
    (m : Nat) (s : RunState) :
    (modelRun args E targets s m).events.countP isAttemptEv
      = s.events.countP isAttemptEv + targets.length := by
  unfold modelRun
  suffices h : ∀ (ts : List Target) (s' : RunState),
      (ts.foldl (fun s t => processTarget args E m (E.modelOutputDir m) t s) s').events.countP
          isAttemptEv
        = s'.events.countP isAttemptEv + ts.length by
    exact (h targets _).trans (by rfl)
  intro ts
  induction ts with
  | nil => intro s'; simp
  | cons t ts ih =>
    intro s'
    have hp := processTarget_countP args E m (E.modelOutputDir m) t s' isAttemptEv
      ⟨fun _ => rfl, fun _ => rfl, fun _ _ => rfl, fun _ _ => rfl⟩
      (fun _ _ => rfl)
    rw [List.foldl_cons, ih, hp]
    have h1 : isAttemptEv (Ev.attempt m t.tag) = true := rfl
    have h2 : isAttemptEv (Ev.done m t.tag) = false := rfl
    rw [h1, h2]
    simp
    omega

theorem modelRun_terminals (args : Args) (E : Ext) (targets : List Target)
    (m : Nat) (s : RunState) :
    (modelRun args E targets s m).events.countP isTerminalEv
      = s.events.countP isTerminalEv + targets.length := by
  unfold modelRun
  suffices h : ∀ (ts : List Target) (s' : RunState),
      (ts.foldl (fun s t => processTarget args E m (E.modelOutputDir m) t s) s').events.countP
          isTerminalEv
        = s'.events.countP isTerminalEv + ts.length by
    exact (h targets _).trans (by rfl)
  intro ts
  induction ts with
  | nil => intro s'; simp
  | cons t ts ih =>
    intro s'
    have hp := processTarget_countP args E m (E.modelOutputDir m) t s' isTerminalEv
      ⟨fun _ => rfl, fun _ => rfl, fun _ _ => rfl, fun _ _ => rfl⟩
      (fun _ _ => rfl)
    rw [List.foldl_cons, ih, hp]
    have h1 : isTerminalEv (Ev.attempt m t.tag) = false := rfl
    have h2 : isTerminalEv (Ev.done m t.tag) = true := rfl
    rw [h1, h2]
    simp
    omega

theorem runModels_attempts (args : Args) (E : Ext) (targets : List Target)
    (n : Nat) (s0 : RunState) :
    (runModels args E targets n s0).events.countP isAttemptEv
      = s0.events.countP isAttemptEv + n * targets.length := by
  induction n with
  | zero => simp [runModels]
  | succ n ih =>
    unfold runModels at ih ⊢
    rw [List.range_succ, List.foldl_append, List.foldl_cons, List.foldl_nil,
      modelRun_attempts, ih]
    ring

theorem runModels_terminals (args : Args) (E : Ext) (targets : List Target)
    (n : Nat) (s0 : RunState) :
    (runModels args E targets n s0).events.countP isTerminalEv
      = s0.events.countP isTerminalEv + n * targets.length := by
  induction n with
  | zero => simp [runModels]
  | succ n ih =>
    unfold runModels at ih ⊢
    rw [List.range_succ, List.foldl_append, List.foldl_cons, List.foldl_nil,
      modelRun_terminals, ih]
    ring

theorem filter_of_subpred {α : Type} (p q : α → Bool)
    (h : ∀ x, p x = true → q x = true) (l : List α) :
    l.filter p = (l.filter q).filter p := by
  rw [List.filter_filter]
  apply List.filter_congr
  intro x _
  cases hp : p x
  · simp
  · simp [h x hp]

theorem alignOne_benign (args : Args) (E : Ext) (tag : Tag) (s : RunState)
    (hB : BenignCore E) :
    ∃ fs' ev, alignOne args E tag s
        = .ok { s with fs := fs', events := s.events ++ ev }
      ∧ ∀ e ∈ ev, ∃ g, e = Ev.alignRunCall g := by
  unfold alignOne fsWrite logEv fsRemove
  by_cases h1 : args.use_precomputed_alignments.isNone = true
  · rw [if_pos h1]
    have h2 : (args.use_single_seq_mode && !(E.embedRunOk tag)) = false := by
      simp [hB.embed]
    simp only [h2, Bool.false_eq_true, if_false]
    rw [if_pos (hB.align tag), if_pos (List.mem_insert_self _ _)]
    exact ⟨(s.fs.insert (tmp_fasta_path args)).erase (tmp_fasta_path args),
      [Ev.alignRunCall tag], rfl, by simp⟩
  · rw [if_neg h1, if_pos (List.mem_insert_self _ _)]
    refine ⟨(s.fs.insert (tmp_fasta_path args)).erase (tmp_fasta_path args), [], ?_, by simp⟩
    simp

theorem precompute_benign (args : Args) (E : Ext)
    (chains : List (Tag × String)) (s : RunState) (hB : BenignCore E) :
    ∃ fs' ev, precompute_alignments args E chains s
        = .ok { s with fs := fs', events := s.events ++ ev }
      ∧ ∀ e ∈ ev, ∃ g, e = Ev.alignRunCall g := by
  induction chains generalizing s with
  | nil => exact ⟨s.fs, [], by simp [precompute_alignments], by simp⟩
  | cons c rest ih =>
    obtain ⟨tag, sq⟩ := c
    obtain ⟨fs1, ev1, h1, hev1⟩ := alignOne_benign args E tag s hB
    obtain ⟨fs2, ev2, h2, hev2⟩ := ih { s with fs := fs1, events := s.events ++ ev1 }
    refine ⟨fs2, ev1 ++ ev2, ?_, ?_⟩
    · simp only [precompute_alignments, h1]
      rw [h2]
      simp
    · intro e he
      rcases List.mem_append.mp he with h | h
      · exact hev1 e h
      · exact hev2 e h

theorem generate_benign (args : Args) (E : Ext) (t : Target) (s : RunState)
    (hB : BenignCore E) :
    generate_feature_dict args E t s
      = .ok (E.processFd t.tag,
          { s with fs := (s.fs.insert (tmp_fasta_path args)).erase (tmp_fasta_path args),
                   events := s.events ++ [Ev.assembleCall t.tag] }) := by
  unfold generate_feature_dict fsWrite logEv fsRemove
  rw [if_pos (hB.assemble t.tag), if_pos (List.mem_insert_self _ _)]

theorem msa_stats_step_benign (t : Target) (fd : FeatureRecord)
    (pf : ProcessedFeatures) (s : RunState) (a b : String) (ht : t.seqs = [a, b])
    (h0 : pf.numRecycle = 0) :
    msa_stats_step t fd pf s = .ok s := by
  unfold msa_stats_step
  rw [ht, h0]
  rfl

theorem wrapper_tail (args : Args) (E : Ext) (m : Nat) (t : Target)
    (fdir : String) (s : RunState) :
    ∃ fs' term,
      targetBoundary m t.tag (tail_steps args E m t fdir s)
        = { s with fs := fs',
                   events := (s.events ++ [Ev.runModelCall m t.tag]) ++ [term] }
      ∧ (term = Ev.done m t.tag ∨ term = Ev.failed m t.tag)
      ∧ (E.runModelOk m t.tag = false → term = Ev.failed m t.tag) := by
  unfold targetBoundary tail_steps run_model_step relax_step write_unrelaxed_step
    save_outputs_step andThen logEv fsWrite
  split_ifs with h1 h2 h3 <;>
    first
      | exact ⟨_, _, rfl, Or.inl rfl, by simp_all⟩
      | exact ⟨_, _, rfl, Or.inr rfl, fun _ => rfl⟩

theorem get_msa_stats_zero (msa : List (List (List Nat))) (l1 l2 : Nat)
    (homo : Bool) : get_msa_stats msa l1 l2 0 homo = .ok [] := rfl

theorem get_msa_stats_total_zero (msa : List (List Nat)) (l1 l2 : Nat)
    (homo : Bool) : get_msa_stats_total msa l1 l2 0 homo = .ok [] := rfl

theorem processTarget_benign_miss (args : Args) (E : Ext) (m : Nat) (od : String)
    (t : Target) (s : RunState) (hB : BenignCore E) (a b : String)
    (ht : t.seqs = [a, b]) (hmiss : s.cache.lookup t.tag = none) :
    ∃ fs' d,
      processTarget args E m od t s =
        { fs := fs',
          cache := (t.tag,
            if args.trace_model then
              pad_feature_dict_seq (E.processFd t.tag) (bucket E t)
            else E.processFd t.tag) :: s.cache,
          rounded_seqlen :=
            if args.trace_model then some (bucket E t) else s.rounded_seqlen,
          curTracingInterval :=
            if args.trace_model ∧ s.curTracingInterval < bucket E t then bucket E t
            else s.curTracingInterval,
          events := s.events ++ d }
      ∧ d.filter isTraceEv =
          (if args.trace_model ∧ s.curTracingInterval < bucket E t then
            [Ev.traceCall m (bucket E t)]
          else [])
      ∧ d.filter isAssembleEv = [Ev.assembleCall t.tag]
      ∧ d.filter isAttemptEv = [Ev.attempt m t.tag]
      ∧ (E.runModelOk m t.tag = false →
          d.filter isTerminalEv = [Ev.failed m t.tag]) := by
  simp only [bucket]
  obtain ⟨fs1, ev1, hpre, hev1⟩ :=
    precompute_benign args E (t.tags.zip t.seqs)
      { s with events := s.events ++ [Ev.attempt m t.tag] } hB
  have hnilT : ev1.filter isTraceEv = [] := List.filter_eq_nil_iff.mpr
    (fun e he => by obtain ⟨g, rfl⟩ := hev1 e he; simp [isTraceEv])
  have hnilA : ev1.filter isAssembleEv = [] := List.filter_eq_nil_iff.mpr
    (fun e he => by obtain ⟨g, rfl⟩ := hev1 e he; simp [isAssembleEv])
  have hnilAt : ev1.filter isAttemptEv = [] := List.filter_eq_nil_iff.mpr
    (fun e he => by obtain ⟨g, rfl⟩ := hev1 e he; simp [isAttemptEv])
  have hnilX : ev1.filter isTerminalEv = [] := List.filter_eq_nil_iff.mpr
    (fun e he => by obtain ⟨g, rfl⟩ := hev1 e he; simp [isTerminalEv])
  have hgen : ∀ s', generate_feature_dict args E t s'
      = .ok (E.processFd t.tag,
          { s' with fs := (s'.fs.insert (tmp_fasta_path args)).erase (tmp_fasta_path args),
                    events := s'.events ++ [Ev.assembleCall t.tag] }) :=
    fun s' => generate_benign args E t s' hB
  have hfeat : ∀ s', process_features_step E t s'
      = .ok (E.processedFeatures t.tag, s') := by
    intro s'
    unfold process_features_step
    rw [if_pos (hB.features t.tag)]
  have hstats : ∀ fd s', msa_stats_step t fd (E.processedFeatures t.tag) s' = .ok s' :=
    fun fd s' => msa_stats_step_benign t fd _ s' a b ht (hB.recycle t.tag)
  by_cases htm : args.trace_model = true
  · by_cases hcur : s.curTracingInterval < round_up_seqlen (E.processFd t.tag).seqLen
    · obtain ⟨fsT, term, htail, hterm1, hterm2⟩ :=
        wrapper_tail args E m t (od ++ "/" ++ args.config_preset ++ "/" ++ t.fileName)
          { fs := (fs1.insert (tmp_fasta_path args)).erase (tmp_fasta_path args),
            cache := (t.tag, pad_feature_dict_seq (E.processFd t.tag)
              (round_up_seqlen (E.processFd t.tag).seqLen)) :: s.cache,
            rounded_seqlen := some (round_up_seqlen (E.processFd t.tag).seqLen),
            curTracingInterval := round_up_seqlen (E.processFd t.tag).seqLen,
            events := (((s.events ++ [Ev.attempt m t.tag]) ++ ev1)
              ++ [Ev.assembleCall t.tag])
              ++ [Ev.traceCall m (round_up_seqlen (E.processFd t.tag).seqLen)] }
      refine ⟨fsT, [Ev.attempt m t.tag] ++ ev1 ++ [Ev.assembleCall t.tag]
        ++ [Ev.traceCall m (round_up_seqlen (E.processFd t.tag).seqLen)]
        ++ [Ev.runModelCall m t.tag] ++ [term], ?_, ?_, ?_, ?_, ?_⟩
      · have hb : processTarget args E m od t s
            = targetBoundary m t.tag (tail_steps args E m t
                (od ++ "/" ++ args.config_preset ++ "/" ++ t.fileName)
                { fs := (fs1.insert (tmp_fasta_path args)).erase (tmp_fasta_path args),
                  cache := (t.tag, pad_feature_dict_seq (E.processFd t.tag)
                    (round_up_seqlen (E.processFd t.tag).seqLen)) :: s.cache,
                  rounded_seqlen := some (round_up_seqlen (E.processFd t.tag).seqLen),
                  curTracingInterval := round_up_seqlen (E.processFd t.tag).seqLen,
                  events := (((s.events ++ [Ev.attempt m t.tag]) ++ ev1)
                    ++ [Ev.assembleCall t.tag])
                    ++ [Ev.traceCall m (round_up_seqlen (E.processFd t.tag).seqLen)] }) := by
          simp only [processTarget, logEv, targetBody]
          rw [hpre]
          simp only [andThen, andThenA, getFeatures, hmiss, hgen, hfeat, hstats]
          simp [htm, trace_step, hcur, hB.traces, logEv]
        rw [hb, htail]
        simp [htm, hcur, List.append_assoc]
      · rcases hterm1 with rfl | rfl <;>
          simp [htm, hcur, List.filter_append, hnilT, isTraceEv]
      · rcases hterm1 with rfl | rfl <;>
          simp [List.filter_append, hnilA, isAssembleEv]
      · rcases hterm1 with rfl | rfl <;>
          simp [List.filter_append, hnilAt, isAttemptEv]
      · intro hrm
        rw [hterm2 hrm]
        simp [List.filter_append, hnilX, isTerminalEv]
    · obtain ⟨fsT, term, htail, hterm1, hterm2⟩ :=
        wrapper_tail args E m t (od ++ "/" ++ args.config_preset ++ "/" ++ t.fileName)
          { fs := (fs1.insert (tmp_fasta_path args)).erase (tmp_fasta_path args),
            cache := (t.tag, pad_feature_dict_seq (E.processFd t.tag)
              (round_up_seqlen (E.processFd t.tag).seqLen)) :: s.cache,
            rounded_seqlen := some (round_up_seqlen (E.processFd t.tag).seqLen),
            curTracingInterval := s.curTracingInterval,
            events := ((s.events ++ [Ev.attempt m t.tag]) ++ ev1)
              ++ [Ev.assembleCall t.tag] }
      refine ⟨fsT, [Ev.attempt m t.tag] ++ ev1 ++ [Ev.assembleCall t.tag]
        ++ [Ev.runModelCall m t.tag] ++ [term], ?_, ?_, ?_, ?_, ?_⟩
      · have hb : processTarget args E m od t s
            = targetBoundary m t.tag (tail_steps args E m t
                (od ++ "/" ++ args.config_preset ++ "/" ++ t.fileName)
                { fs := (fs1.insert (tmp_fasta_path args)).erase (tmp_fasta_path args),
                  cache := (t.tag, pad_feature_dict_seq (E.processFd t.tag)
                    (round_up_seqlen (E.processFd t.tag).seqLen)) :: s.cache,
                  rounded_seqlen := some (round_up_seqlen (E.processFd t.tag).seqLen),
                  curTracingInterval := s.curTracingInterval,
                  events := ((s.events ++ [Ev.attempt m t.tag]) ++ ev1)
                    ++ [Ev.assembleCall t.tag] }) := by
          simp only [processTarget, logEv, targetBody]
          rw [hpre]
          simp only [andThen, andThenA, getFeatures, hmiss, hgen, hfeat, hstats]
          simp [htm, trace_step, hcur, logEv]
        rw [hb, htail]
        simp [htm, hcur, List.append_assoc]
      · rcases hterm1 with rfl | rfl <;>
          simp [htm, hcur, List.filter_append, hnilT, isTraceEv]
      · rcases hterm1 with rfl | rfl <;>
          simp [List.filter_append, hnilA, isAssembleEv]
      · rcases hterm1 with rfl | rfl <;>
          simp [List.filter_append, hnilAt, isAttemptEv]
      · intro hrm
        rw [hterm2 hrm]
        simp [List.filter_append, hnilX, isTerminalEv]
  · obtain ⟨fsT, term, htail, hterm1, hterm2⟩ :=
      wrapper_tail args E m t (od ++ "/" ++ args.config_preset ++ "/" ++ t.fileName)
        { fs := (fs1.insert (tmp_fasta_path args)).erase (tmp_fasta_path args),
          cache := (t.tag, E.processFd t.tag) :: s.cache,
          rounded_seqlen := s.rounded_seqlen,
          curTracingInterval := s.curTracingInterval,
          events := ((s.events ++ [Ev.attempt m t.tag]) ++ ev1)
            ++ [Ev.assembleCall t.tag] }
    refine ⟨fsT, [Ev.attempt m t.tag] ++ ev1 ++ [Ev.assembleCall t.tag]
      ++ [Ev.runModelCall m t.tag] ++ [term], ?_, ?_, ?_, ?_, ?_⟩
    · have hb : processTarget args E m od t s
          = targetBoundary m t.tag (tail_steps args E m t
              (od ++ "/" ++ args.config_preset ++ "/" ++ t.fileName)
              { fs := (fs1.insert (tmp_fasta_path args)).erase (tmp_fasta_path args),
                cache := (t.tag, E.processFd t.tag) :: s.cache,
                rounded_seqlen := s.rounded_seqlen,
                curTracingInterval := s.curTracingInterval,
                events := ((s.events ++ [Ev.attempt m t.tag]) ++ ev1)
                  ++ [Ev.assembleCall t.tag] }) := by
        simp only [processTarget, logEv, targetBody]
        rw [hpre]
        simp only [andThen, andThenA, getFeatures, hmiss, hgen, hfeat, hstats]
        simp [htm, trace_step, logEv]
      rw [hb, htail]
      simp [htm, List.append_assoc]
    · rcases hterm1 with rfl | rfl <;>
        simp [htm, List.filter_append, hnilT, isTraceEv]
    · rcases hterm1 with rfl | rfl <;>
        simp [List.filter_append, hnilA, isAssembleEv]
    · rcases hterm1 with rfl | rfl <;>
        simp [List.filter_append, hnilAt, isAttemptEv]
    · intro hrm
      rw [hterm2 hrm]
      simp [List.filter_append, hnilX, isTerminalEv]

theorem processTarget_benign_hit_traced (args : Args) (E : Ext) (m : Nat)
    (od : String) (t : Target) (s : RunState) (hB : BenignCore E) (a b : String)
    (ht : t.seqs = [a, b]) (fd : FeatureRecord)
    (hhit : s.cache.lookup t.tag = some fd) (htm : args.trace_model = true)
    (B : Nat) (hstale : s.rounded_seqlen = some B) :
    ∃ fs' d,
      processTarget args E m od t s =
        { fs := fs',
          cache := s.cache,
          rounded_seqlen := s.rounded_seqlen,
          curTracingInterval :=
            if s.curTracingInterval < B then B else s.curTracingInterval,
          events := s.events ++ d }
      ∧ d.filter isTraceEv =
          (if s.curTracingInterval < B then [Ev.traceCall m B] else [])
      ∧ d.filter isAssembleEv = []
      ∧ d.filter isAttemptEv = [Ev.attempt m t.tag]
      ∧ (E.runModelOk m t.tag = false →
          d.filter isTerminalEv = [Ev.failed m t.tag]) := by
  obtain ⟨fs1, ev1, hpre, hev1⟩ :=
    precompute_benign args E (t.tags.zip t.seqs)
      { s with events := s.events ++ [Ev.attempt m t.tag] } hB
  have hnilT : ev1.filter isTraceEv = [] := List.filter_eq_nil_iff.mpr
    (fun e he => by obtain ⟨g, rfl⟩ := hev1 e he; simp [isTraceEv])
  have hnilA : ev1.filter isAssembleEv = [] := List.filter_eq_nil_iff.mpr
    (fun e he => by obtain ⟨g, rfl⟩ := hev1 e he; simp [isAssembleEv])
  have hnilAt : ev1.filter isAttemptEv = [] := List.filter_eq_nil_iff.mpr
    (fun e he => by obtain ⟨g, rfl⟩ := hev1 e he; simp [isAttemptEv])
  have hnilX : ev1.filter isTerminalEv = [] := List.filter_eq_nil_iff.mpr
    (fun e he => by obtain ⟨g, rfl⟩ := hev1 e he; simp [isTerminalEv])
  have hfeat : ∀ s', process_features_step E t s'
      = .ok (E.processedFeatures t.tag, s') := by
    intro s'
    unfold process_features_step
    rw [if_pos (hB.features t.tag)]
  have hstats : ∀ fd' s', msa_stats_step t fd' (E.processedFeatures t.tag) s' = .ok s' :=
    fun fd' s' => msa_stats_step_benign t fd' _ s' a b ht (hB.recycle t.tag)
  by_cases hcur : s.curTracingInterval < B
  · obtain ⟨fsT, term, htail, hterm1, hterm2⟩ :=
      wrapper_tail args E m t (od ++ "/" ++ args.config_preset ++ "/" ++ t.fileName)
        { fs := fs1, cache := s.cache, rounded_seqlen := some B,
          curTracingInterval := B,
          events := ((s.events ++ [Ev.attempt m t.tag]) ++ ev1)
            ++ [Ev.traceCall m B] }
    refine ⟨fsT, [Ev.attempt m t.tag] ++ ev1 ++ [Ev.traceCall m B]
      ++ [Ev.runModelCall m t.tag] ++ [term], ?_, ?_, ?_, ?_, ?_⟩
    · have hb : processTarget args E m od t s
          = targetBoundary m t.tag (tail_steps args E m t
              (od ++ "/" ++ args.config_preset ++ "/" ++ t.fileName)
              { fs := fs1, cache := s.cache, rounded_seqlen := some B,
                curTracingInterval := B,
                events := ((s.events ++ [Ev.attempt m t.tag]) ++ ev1)
                  ++ [Ev.traceCall m B] }) := by
        simp only [processTarget, logEv, targetBody]
        rw [hpre]
        simp only [andThen, andThenA, getFeatures, hhit, hfeat, hstats]
        simp [htm, trace_step, hstale, hcur, hB.traces, logEv]
      rw [hb, htail]
      simp [hstale, hcur, List.append_assoc]
    · rcases hterm1 with rfl | rfl <;>
        simp [hcur, List.filter_append, hnilT, isTraceEv]
    · rcases hterm1 with rfl | rfl <;>
        simp [List.filter_append, hnilA, isAssembleEv]
    · rcases hterm1 with rfl | rfl <;>
        simp [List.filter_append, hnilAt, isAttemptEv]
    · intro hrm
      rw [hterm2 hrm]
      simp [List.filter_append, hnilX, isTerminalEv]
  · obtain ⟨fsT, term, htail, hterm1, hterm2⟩ :=
      wrapper_tail args E m t (od ++ "/" ++ args.config_preset ++ "/" ++ t.fileName)
        { fs := fs1, cache := s.cache, rounded_seqlen := some B,
          curTracingInterval := s.curTracingInterval,
          events := (s.events ++ [Ev.attempt m t.tag]) ++ ev1 }
    refine ⟨fsT, [Ev.attempt m t.tag] ++ ev1
      ++ [Ev.runModelCall m t.tag] ++ [term], ?_, ?_, ?_, ?_, ?_⟩
    · have hb : processTarget args E m od t s
          = targetBoundary m t.tag (tail_steps args E m t
              (od ++ "/" ++ args.config_preset ++ "/" ++ t.fileName)
              { fs := fs1, cache := s.cache, rounded_seqlen := some B,
                curTracingInterval := s.curTracingInterval,
                events := (s.events ++ [Ev.attempt m t.tag]) ++ ev1 }) := by
        simp only [processTarget, logEv, targetBody]
        rw [hpre]
        simp only [andThen, andThenA, getFeatures, hhit, hfeat, hstats]
        simp [htm, trace_step, hstale, hcur, logEv]
      rw [hb, htail]
      simp [hstale, hcur, List.append_assoc]
    · rcases hterm1 with rfl | rfl <;>
        simp [hcur, List.filter_append, hnilT, isTraceEv]
    · rcases hterm1 with rfl | rfl <;>
        simp [List.filter_append, hnilA, isAssembleEv]
    · rcases hterm1 with rfl | rfl <;>
        simp [List.filter_append, hnilAt, isAttemptEv]
    · intro hrm
      rw [hterm2 hrm]
      simp [List.filter_append, hnilX, isTerminalEv]

theorem processTarget_benign_hit_basic (args : Args) (E : Ext) (m : Nat)
    (od : String) (t : Target) (s : RunState) (hB : BenignCore E) (a b : String)
    (ht : t.seqs = [a, b]) (fd : FeatureRecord)
    (hhit : s.cache.lookup t.tag = some fd) :
    ∃ fs' cur' d,
      processTarget args E m od t s =
        { fs := fs',
          cache := s.cache,
          rounded_seqlen := s.rounded_seqlen,
          curTracingInterval := cur',
          events := s.events ++ d }
      ∧ d.filter isAssembleEv = []
      ∧ d.filter isAttemptEv = [Ev.attempt m t.tag]
      ∧ (E.runModelOk m t.tag = false →
          d.filter isTerminalEv = [Ev.failed m t.tag]) := by
  by_cases htm : args.trace_model = true
  · cases hstale : s.rounded_seqlen with
    | some B =>
      obtain ⟨fs', d, heq, _, h2, h3, h4⟩ :=
        processTarget_benign_hit_traced args E m od t s hB a b ht fd hhit htm B hstale
      exact ⟨fs', _, d, by rw [heq, hstale], h2, h3, h4⟩
    | none =>
      -- NameError at the tracing trigger: the body raises, the boundary
      -- logs the failure; cache and rounded_seqlen are untouched
      obtain ⟨fs1, ev1, hpre, hev1⟩ :=
        precompute_benign args E (t.tags.zip t.seqs)
          { s with events := s.events ++ [Ev.attempt m t.tag] } hB
      have hnilA : ev1.filter isAssembleEv = [] := List.filter_eq_nil_iff.mpr
        (fun e he => by obtain ⟨g, rfl⟩ := hev1 e he; simp [isAssembleEv])
      have hnilAt : ev1.filter isAttemptEv = [] := List.filter_eq_nil_iff.mpr
        (fun e he => by obtain ⟨g, rfl⟩ := hev1 e he; simp [isAttemptEv])
      have hnilX : ev1.filter isTerminalEv = [] := List.filter_eq_nil_iff.mpr
        (fun e he => by obtain ⟨g, rfl⟩ := hev1 e he; simp [isTerminalEv])
      have hfeat : ∀ s', process_features_step E t s'
          = .ok (E.processedFeatures t.tag, s') := by
        intro s'
        unfold process_features_step
        rw [if_pos (hB.features t.tag)]
      have hstats : ∀ fd' s', msa_stats_step t fd' (E.processedFeatures t.tag) s'
          = .ok s' :=
        fun fd' s' => msa_stats_step_benign t fd' _ s' a b ht (hB.recycle t.tag)
      refine ⟨fs1, s.curTracingInterval,
        [Ev.attempt m t.tag] ++ ev1 ++ [Ev.failed m t.tag], ?_, ?_, ?_, ?_⟩
      · have hb : processTarget args E m od t s
            = { fs := fs1, cache := s.cache, rounded_seqlen := s.rounded_seqlen,
                curTracingInterval := s.curTracingInterval,
                events := ((s.events ++ [Ev.attempt m t.tag]) ++ ev1)
                  ++ [Ev.failed m t.tag] } := by
          simp only [processTarget, logEv, targetBody]
          rw [hpre]
          simp only [andThen, andThenA, getFeatures, hhit, hfeat, hstats]
          simp [htm, trace_step, hstale, targetBoundary, logEv]
        rw [hb]
        simp [List.append_assoc, hstale]
      · simp [List.filter_append, hnilA, isAssembleEv]
      · simp [List.filter_append, hnilAt, isAttemptEv]
      · intro _
        simp [List.filter_append, hnilX, isTerminalEv]
  · obtain ⟨fs1, ev1, hpre, hev1⟩ :=
      precompute_benign args E (t.tags.zip t.seqs)
        { s with events := s.events ++ [Ev.attempt m t.tag] } hB
    have hnilA : ev1.filter isAssembleEv = [] := List.filter_eq_nil_iff.mpr
      (fun e he => by obtain ⟨g, rfl⟩ := hev1 e he; simp [isAssembleEv])
    have hnilAt : ev1.filter isAttemptEv = [] := List.filter_eq_nil_iff.mpr
      (fun e he => by obtain ⟨g, rfl⟩ := hev1 e he; simp [isAttemptEv])
    have hnilX : ev1.filter isTerminalEv = [] := List.filter_eq_nil_iff.mpr
      (fun e he => by obtain ⟨g, rfl⟩ := hev1 e he; simp [isTerminalEv])
    have hfeat : ∀ s', process_features_step E t s'
        = .ok (E.processedFeatures t.tag, s') := by
      intro s'
      unfold process_features_step
      rw [if_pos (hB.features t.tag)]
    have hstats : ∀ fd' s', msa_stats_step t fd' (E.processedFeatures t.tag) s'
        = .ok s' :=
      fun fd' s' => msa_stats_step_benign t fd' _ s' a b ht (hB.recycle t.tag)
    obtain ⟨fsT, term, htail, hterm1, hterm2⟩ :=
      wrapper_tail args E m t (od ++ "/" ++ args.config_preset ++ "/" ++ t.fileName)
        { fs := fs1, cache := s.cache, rounded_seqlen := s.rounded_seqlen,
          curTracingInterval := s.curTracingInterval,
          events := (s.events ++ [Ev.attempt m t.tag]) ++ ev1 }
    refine ⟨fsT, s.curTracingInterval, [Ev.attempt m t.tag] ++ ev1
      ++ [Ev.runModelCall m t.tag] ++ [term], ?_, ?_, ?_, ?_⟩
    · have hb : processTarget args E m od t s
          = targetBoundary m t.tag (tail_steps args E m t
              (od ++ "/" ++ args.config_preset ++ "/" ++ t.fileName)
              { fs := fs1, cache := s.cache, rounded_seqlen := s.rounded_seqlen,
                curTracingInterval := s.curTracingInterval,
                events := (s.events ++ [Ev.attempt m t.tag]) ++ ev1 }) := by
        simp only [processTarget, logEv, targetBody]
        rw [hpre]
        simp only [andThen, andThenA, getFeatures, hhit, hfeat, hstats]
        simp [htm, trace_step, logEv]
      rw [hb, htail]
      simp [List.append_assoc]
    · rcases hterm1 with rfl | rfl <;>
        simp [List.filter_append, hnilA, isAssembleEv]
    · rcases hterm1 with rfl | rfl <;>
        simp [List.filter_append, hnilAt, isAttemptEv]
    · intro hrm
      rw [hterm2 hrm]
      simp [List.filter_append, hnilX, isTerminalEv]

theorem seqs_pair_of_length (l : List String) (h : l.length = 2) :
    ∃ a b, l = [a, b] := by
  match l, h with
  | [a, b], _ => exact ⟨a, b, rfl⟩

theorem lookup_isSome_of_mem_keys {β : Type} (g : Tag) (l : List (Tag × β))
    (h : g ∈ l.map Prod.fst) : (l.lookup g).isSome = true := by
  induction l with
  | nil => simp at h
  | cons e l ih =>
    simp only [List.map_cons, List.mem_cons] at h
    by_cases hg : (g == e.1) = true
    · simp [List.lookup, hg]
    · rcases h with h | h
      · exact absurd (by simp [h]) hg
      · simp [List.lookup, hg, ih h]

theorem round_up_seqlen_pos (n : Nat) (h : 0 < n) : 0 < round_up_seqlen n := by
  unfold round_up_seqlen TRACING_INTERVAL
  have h50 : (1 : Nat) ≤ (n + 50 - 1) / 50 := by
    rw [Nat.one_le_div_iff (by norm_num)]
    omega
  omega

theorem lastStale_of_getLast? (l : List Nat) (b : Nat) (h : l.getLast? = some b) :
    ∀ s0, lastStale s0 l = some b := by
  induction l with
  | nil => simp at h
  | cons a l ih =>
    intro s0
    cases l with
    | nil =>
      simp at h
      simp [lastStale, h]
    | cons c l' =>
      rw [List.getLast?_cons_cons] at h
      exact ih h (some a)

theorem filter_traceM_map (m mm : Nat) (L : List Nat) :
    (L.map (fun bb => Ev.traceCall m bb)).filter (isTraceM mm) =
      if mm = m then L.map (fun bb => Ev.traceCall m bb) else [] := by
  induction L with
  | nil => simp
  | cons b L ih =>
    simp only [List.map_cons, List.filter_cons]
    have hval : isTraceM mm (Ev.traceCall m b) = (m == mm) := rfl
    by_cases h : mm = m
    · subst h
      simp [hval, ih]
    · have hne : (m == mm) = false := by simp [Ne.symm h]
      simp [hval, hne, ih, h]

theorem foldl_fresh_traced (args : Args) (E : Ext) (m : Nat) (hB : BenignCore E)
    (htm : args.trace_model = true) :
    ∀ (ts : List Target) (s : RunState),
    (∀ t ∈ ts, t.seqs.length = 2) →
    (ts.map Target.tag).Nodup →
    (∀ t ∈ ts, s.cache.lookup t.tag = none) →
    ∃ fs' d,
      ts.foldl (fun s t => processTarget args E m (E.modelOutputDir m) t s) s =
        { fs := fs',
          cache := (ts.map (fun t => (t.tag,
            pad_feature_dict_seq (E.processFd t.tag) (bucket E t)))).reverse ++ s.cache,
          rounded_seqlen := lastStale s.rounded_seqlen (ts.map (bucket E)),
          curTracingInterval :=
            (ts.map (bucket E)).foldl (fun c bb => if c < bb then bb else c)
              s.curTracingInterval,
          events := s.events ++ d }
      ∧ d.filter isTraceEv =
          (risesFrom s.curTracingInterval (ts.map (bucket E))).map
            (fun bb => Ev.traceCall m bb) := by
  intro ts
  induction ts with
  | nil =>
    intro s _ _ _
    exact ⟨s.fs, [], by simp [lastStale], by simp [risesFrom]⟩
  | cons t ts ih =>
    intro s h2 hnd hfresh
    obtain ⟨a, b, hab⟩ := seqs_pair_of_length t.seqs (h2 t (by simp))
    obtain ⟨fs1, d1, heq1, hT1, hA1, hAt1, hX1⟩ :=
      processTarget_benign_miss args E m (E.modelOutputDir m) t s hB a b hab
        (hfresh t (by simp))
    simp only [htm, if_true, true_and] at heq1 hT1
    have hndtail : (ts.map Target.tag).Nodup := (List.nodup_cons.mp hnd).2
    have hhead : t.tag ∉ ts.map Target.tag := (List.nodup_cons.mp hnd).1
    obtain ⟨fs2, d2, heq2, hT2⟩ := ih
      { fs := fs1,
        cache := (t.tag, pad_feature_dict_seq (E.processFd t.tag) (bucket E t)) :: s.cache,
        rounded_seqlen := some (bucket E t),
        curTracingInterval :=
          if s.curTracingInterval < bucket E t then bucket E t
          else s.curTracingInterval,
        events := s.events ++ d1 }
      (fun t' ht' => h2 t' (by simp [ht']))
      hndtail
      (by
        intro t' ht'
        have hne : (t'.tag == t.tag) = false := by
          simp only [beq_eq_false_iff_ne, ne_eq]
          intro hcontra
          exact hhead (hcontra ▸ List.mem_map_of_mem Target.tag ht')
        simp [List.lookup, hne, hfresh t' (by simp [ht'])])
    rw [List.foldl_cons, heq1, heq2]
    refine ⟨fs2, d1 ++ d2, ?_, ?_⟩
    · simp [lastStale, List.append_assoc]
    · rw [List.filter_append, hT1, hT2]
      by_cases hcb : s.curTracingInterval < bucket E t <;>
        simp [risesFrom, hcb]

theorem foldl_warm_traced (args : Args) (E : Ext) (m : Nat) (hB : BenignCore E)
    (htm : args.trace_model = true) (B : Nat) :
    ∀ (ts : List Target) (s : RunState),
    (∀ t ∈ ts, t.seqs.length = 2) →
    (∀ t ∈ ts, ∃ fd, s.cache.lookup t.tag = some fd) →
    s.rounded_seqlen = some B →
    ∃ fs' d,
      ts.foldl (fun s t => processTarget args E m (E.modelOutputDir m) t s) s =
        { fs := fs',
          cache := s.cache,
          rounded_seqlen := some B,
          curTracingInterval :=
            if ts ≠ [] ∧ s.curTracingInterval < B then B else s.curTracingInterval,
          events := s.events ++ d }
      ∧ d.filter isTraceEv =
          (if ts ≠ [] ∧ s.curTracingInterval < B then [Ev.traceCall m B] else []) := by
  intro ts
  induction ts with
  | nil =>
    intro s _ _ hstale
    exact ⟨s.fs, [], by rw [← hstale]; simp, by simp⟩
  | cons t ts ih =>
    intro s h2 hhits hstale
    obtain ⟨a, b, hab⟩ := seqs_pair_of_length t.seqs (h2 t (by simp))
    obtain ⟨fd, hfd⟩ := hhits t (by simp)
    obtain ⟨fs1, d1, heq1, hT1, hA1, hAt1, hX1⟩ :=
      processTarget_benign_hit_traced args E m (E.modelOutputDir m) t s hB a b hab
        fd hfd htm B hstale
    obtain ⟨fs2, d2, heq2, hT2⟩ := ih
      { fs := fs1, cache := s.cache, rounded_seqlen := s.rounded_seqlen,
        curTracingInterval :=
          if s.curTracingInterval < B then B else s.curTracingInterval,
        events := s.events ++ d1 }
      (fun t' ht' => h2 t' (by simp [ht']))
      (fun t' ht' => hhits t' (by simp [ht']))
      hstale
    rw [List.foldl_cons, heq1, heq2]
    by_cases hcb : s.curTracingInterval < B
    · refine ⟨fs2, d1 ++ d2, ?_, ?_⟩
      · simp [hcb, List.append_assoc]
      · rw [List.filter_append, hT1, hT2]
        simp [hcb]
    · refine ⟨fs2, d1 ++ d2, ?_, ?_⟩
      · simp [hcb, List.append_assoc]
      · rw [List.filter_append, hT1, hT2]
        simp [hcb]

theorem done_filter_nil_of_terminal (d : List Ev) (m : Nat) (g : Tag)
    (h : d.filter isTerminalEv = [Ev.failed m g]) : d.filter isDoneEv = [] := by
  rw [filter_of_subpred isDoneEv isTerminalEv
    (fun e he => by cases e <;> simp_all [isDoneEv, isTerminalEv]) d, h]
  simp [isDoneEv]

theorem foldl_fresh_basic (args : Args) (E : Ext) (m : Nat) (hB : BenignCore E) :
    ∀ (ts : List Target) (s : RunState),
    (∀ t ∈ ts, t.seqs.length = 2) →
    (ts.map Target.tag).Nodup →
    (∀ t ∈ ts, s.cache.lookup t.tag = none) →
    ∃ fs' stale' cur' d,
      ts.foldl (fun s t => processTarget args E m (E.modelOutputDir m) t s) s =
        { fs := fs',
          cache := (ts.map (fun t => (t.tag,
            if args.trace_model then
              pad_feature_dict_seq (E.processFd t.tag) (bucket E t)
            else E.processFd t.tag))).reverse ++ s.cache,
          rounded_seqlen := stale',
          curTracingInterval := cur',
          events := s.events ++ d }
      ∧ d.filter isAssembleEv = ts.map (fun t => Ev.assembleCall t.tag)
      ∧ ((∀ g, E.runModelOk m g = false) → d.filter isDoneEv = []) := by
  intro ts
  induction ts with
  | nil =>
    intro s _ _ _
    exact ⟨s.fs, s.rounded_seqlen, s.curTracingInterval, [], by simp, by simp,
      fun _ => by simp⟩
  | cons t ts ih =>
    intro s h2 hnd hfresh
    obtain ⟨a, b, hab⟩ := seqs_pair_of_length t.seqs (h2 t (by simp))
    obtain ⟨fs1, d1, heq1, hT1, hA1, hAt1, hX1⟩ :=
      processTarget_benign_miss args E m (E.modelOutputDir m) t s hB a b hab
        (hfresh t (by simp))
    have hndtail : (ts.map Target.tag).Nodup := (List.nodup_cons.mp hnd).2
    have hhead : t.tag ∉ ts.map Target.tag := (List.nodup_cons.mp hnd).1
    obtain ⟨fs2, stale2, cur2, d2, heq2, hA2, hD2⟩ := ih
      { fs := fs1,
        cache := (t.tag,
          if args.trace_model then
            pad_feature_dict_seq (E.processFd t.tag) (bucket E t)
          else E.processFd t.tag) :: s.cache,
        rounded_seqlen :=
          if args.trace_model then some (bucket E t) else s.rounded_seqlen,
        curTracingInterval :=
          if args.trace_model ∧ s.curTracingInterval < bucket E t then bucket E t
          else s.curTracingInterval,
        events := s.events ++ d1 }
      (fun t' ht' => h2 t' (by simp [ht']))
      hndtail
      (by
        intro t' ht'
        have hne : (t'.tag == t.tag) = false := by
          simp only [beq_eq_false_iff_ne, ne_eq]
          intro hcontra
          exact hhead (hcontra ▸ List.mem_map_of_mem Target.tag ht')
        simp [List.lookup, hne, hfresh t' (by simp [ht'])])
    rw [List.foldl_cons, heq1, heq2]
    refine ⟨fs2, stale2, cur2, d1 ++ d2, ?_, ?_, ?_⟩
    · simp [List.append_assoc]
    · rw [List.filter_append, hA1, hA2]
      rfl
    · intro hrun
      rw [List.filter_append, hD2 hrun,
        done_filter_nil_of_terminal d1 m t.tag (hX1 (hrun t.tag))]
      rfl

theorem foldl_warm_basic (args : Args) (E : Ext) (m : Nat) (hB : BenignCore E) :
    ∀ (ts : List Target) (s : RunState),
    (∀ t ∈ ts, t.seqs.length = 2) →
    (∀ t ∈ ts, ∃ fd, s.cache.lookup t.tag = some fd) →
    ∃ fs' cur' d,
      ts.foldl (fun s t => processTarget args E m (E.modelOutputDir m) t s) s =
        { fs := fs',
          cache := s.cache,
          rounded_seqlen := s.rounded_seqlen,
          curTracingInterval := cur',
          events := s.events ++ d }
      ∧ d.filter isAssembleEv = []
      ∧ ((∀ g, E.runModelOk m g = false) → d.filter isDoneEv = []) := by
  intro ts
  induction ts with
  | nil =>
    intro s _ _
    exact ⟨s.fs, s.curTracingInterval, [], by simp, by simp, fun _ => by simp⟩
  | cons t ts ih =>
    intro s h2 hhits
    obtain ⟨a, b, hab⟩ := seqs_pair_of_length t.seqs (h2 t (by simp))
    obtain ⟨fd, hfd⟩ := hhits t (by simp)
    obtain ⟨fs1, cur1, d1, heq1, hA1, hAt1, hX1⟩ :=
      processTarget_benign_hit_basic args E m (E.modelOutputDir m) t s hB a b hab
        fd hfd
    obtain ⟨fs2, cur2, d2, heq2, hA2, hD2⟩ := ih
      { fs := fs1, cache := s.cache, rounded_seqlen := s.rounded_seqlen,
        curTracingInterval := cur1, events := s.events ++ d1 }
      (fun t' ht' => h2 t' (by simp [ht']))
      (fun t' ht' => hhits t' (by simp [ht']))
    rw [List.foldl_cons, heq1, heq2]
    refine ⟨fs2, cur2, d1 ++ d2, ?_, ?_, ?_⟩
    · simp [List.append_assoc]
    · rw [List.filter_append, hA1, hA2]
      rfl
    · intro hrun
      rw [List.filter_append, hD2 hrun,
        done_filter_nil_of_terminal d1 m t.tag (hX1 (hrun t.tag))]
      rfl

theorem traceM_sub_traceEv (mm : Nat) :
    ∀ e, isTraceM mm e = true → isTraceEv e = true := by
  intro e he
  cases e <;> simp_all [isTraceM, isTraceEv]

theorem warmModels_traced (args : Args) (E : Ext) (hB : BenignCore E)
    (htm : args.trace_model = true) (ts : List Target) (B : Nat)
    (h2 : ∀ t ∈ ts, t.seqs.length = 2) (hne : ts ≠ []) (hBpos : 0 < B) :
    ∀ (ms : List Nat) (s : RunState),
    ms.Nodup →
    (∀ t ∈ ts, ∃ fd, s.cache.lookup t.tag = some fd) →
    s.rounded_seqlen = some B →
    ∃ fs' cur' d,
      ms.foldl (modelRun args E ts) s =
        { fs := fs', cache := s.cache, rounded_seqlen := some B,
          curTracingInterval := cur', events := s.events ++ d }
      ∧ ∀ mm, d.filter (isTraceM mm) = if mm ∈ ms then [Ev.traceCall mm B] else [] := by
  intro ms
  induction ms with
  | nil =>
    intro s _ _ hstale
    exact ⟨s.fs, s.curTracingInterval, [], by rw [← hstale]; simp, by simp⟩
  | cons m0 rest ih =>
    intro s hnd hhits hstale
    obtain ⟨fs1, d1, heq1, hT1⟩ := foldl_warm_traced args E m0 hB htm B ts
      { s with curTracingInterval := 0 } h2 hhits hstale
    rw [if_pos ⟨hne, hBpos⟩] at heq1 hT1
    have hstep : modelRun args E ts s m0 =
        { fs := fs1, cache := s.cache, rounded_seqlen := some B,
          curTracingInterval := B, events := s.events ++ d1 } := by
      unfold modelRun
      exact heq1
    obtain ⟨fs2, cur2, d2, heq2, hT2⟩ := ih
      { fs := fs1, cache := s.cache, rounded_seqlen := some B,
        curTracingInterval := B, events := s.events ++ d1 }
      (List.nodup_cons.mp hnd).2 hhits rfl
    rw [List.foldl_cons, hstep, heq2]
    refine ⟨fs2, cur2, d1 ++ d2, by simp [List.append_assoc], ?_⟩
    intro mm
    rw [List.filter_append, hT2 mm,
      filter_of_subpred (isTraceM mm) isTraceEv (traceM_sub_traceEv mm) d1, hT1]
    have : ([B].map (fun bb => Ev.traceCall m0 bb)).filter (isTraceM mm)
        = if mm = m0 then [B].map (fun bb => Ev.traceCall m0 bb) else [] :=
      filter_traceM_map m0 mm [B]
    simp only [List.map_cons, List.map_nil] at this
    rw [this]
    have hm0 : m0 ∉ rest := (List.nodup_cons.mp hnd).1
    by_cases h0 : mm = m0
    · subst h0
      simp [hm0]
    · by_cases hr : mm ∈ rest <;> simp [h0, hr]

theorem warmModels_basic (args : Args) (E : Ext) (hB : BenignCore E)
    (ts : List Target) (h2 : ∀ t ∈ ts, t.seqs.length = 2) :
    ∀ (ms : List Nat) (s : RunState),
    (∀ t ∈ ts, ∃ fd, s.cache.lookup t.tag = some fd) →
    ∃ fs' cur' d,
      ms.foldl (modelRun args E ts) s =
        { fs := fs', cache := s.cache, rounded_seqlen := s.rounded_seqlen,
          curTracingInterval := cur', events := s.events ++ d }
      ∧ d.filter isAssembleEv = []
      ∧ ((∀ m' g, E.runModelOk m' g = false) → d.filter isDoneEv = []) := by
  intro ms
  induction ms with
  | nil =>
    intro s _
    exact ⟨s.fs, s.curTracingInterval, [], by simp, by simp, fun _ => by simp⟩
  | cons m0 rest ih =>
    intro s hhits
    obtain ⟨fs1, cur1, d1, heq1, hA1, hD1⟩ := foldl_warm_basic args E m0 hB ts
      { s with curTracingInterval := 0 } h2 hhits
    have hstep : modelRun args E ts s m0 =
        { fs := fs1, cache := s.cache, rounded_seqlen := s.rounded_seqlen,
          curTracingInterval := cur1, events := s.events ++ d1 } := by
      unfold modelRun
      exact heq1
    obtain ⟨fs2, cur2, d2, heq2, hA2, hD2⟩ := ih
      { fs := fs1, cache := s.cache, rounded_seqlen := s.rounded_seqlen,
        curTracingInterval := cur1, events := s.events ++ d1 } hhits
    rw [List.foldl_cons, hstep, heq2]
    refine ⟨fs2, cur2, d1 ++ d2, by simp [List.append_assoc], ?_, ?_⟩
    · rw [List.filter_append, hA1, hA2]
      rfl
    · intro hrun
      rw [List.filter_append, hD1 (hrun m0), hD2 hrun]
      rfl

/-! ### Claim theorems -/

/-- C5: for every pattern of collaborator failures (any oracles `E`), every
model index and every target list, the driver enters the per-target `try`
body exactly once per (model, target) pair and every entry is matched by a
terminal boundary event (`done` or logged `failed`): an exception inside
the body is caught at the per-target boundary and never aborts the loops,
so the totals equal numModels * |targets| regardless of which stages raise. -/
theorem c5_per_target_failures_never_abort_the_loops (args : Args) (E : Ext)
    (targets : List Target) (n : Nat) :
    (runModels args E targets n initRunState).events.countP isAttemptEv
        = n * targets.length
    ∧ (runModels args E targets n initRunState).events.countP isTerminalEv
        = n * targets.length := by
  constructor
  · rw [runModels_attempts]
    simp [initRunState]
  · rw [runModels_terminals]
    simp [initRunState]

theorem mainRun_eq (args0 : Args) (E : Ext)
    (files : List (String × List (Tag × String))) :
    mainRun args0 E files =
      if args0.trace_model && !(Config.fixed_size (activeConfig args0 E)) then
        .error "ValueError: Tracing requires that fixed_size mode be enabled in the config"
      else
        .ok (runModels
          (if strStartsWith args0.config_preset "seq" then
            { args0 with use_single_seq_mode := true }
          else args0)
          E
          (sortTargets (discoverTargets (strContains "multimer" args0.config_preset) files))
          E.numModels initRunState) := by
  unfold mainRun
  by_cases h1 : strStartsWith args0.config_preset "seq" = true <;> simp [h1] <;> rfl

/-- C8: the startup validation of lines 222-224 is the only raise outside
the per-target boundary: `mainRun` aborts (returning the `ValueError`
before any target is processed, with no run state at all) exactly when
model tracing is requested while the overlaid configuration's fixed-size
mode is off; in every other case the run completes and attempts every
(model, target) pair, whatever the collaborator failures. -/
theorem c8_tracing_without_fixed_size_is_the_only_fatal_error (args : Args)
    (E : Ext) (files : List (String × List (Tag × String))) :
    (mainRun args E files
        = .error "ValueError: Tracing requires that fixed_size mode be enabled in the config"
      ↔ args.trace_model = true ∧ Config.fixed_size (activeConfig args E) = false)
    ∧ ∀ s, mainRun args E files = .ok s →
        s.events.countP isAttemptEv
          = E.numModels * (sortTargets (discoverTargets
              (strContains "multimer" args.config_preset) files)).length := by
  rw [mainRun_eq]
  constructor
  · by_cases hc : (args.trace_model && !(Config.fixed_size (activeConfig args E))) = true
    · rw [if_pos hc]
      simp only [Bool.and_eq_true, Bool.not_eq_true'] at hc
      exact ⟨fun _ => hc, fun _ => rfl⟩
    · rw [if_neg hc]
      constructor
      · intro h
        cases h
      · rintro ⟨ht, hf⟩
        exact absurd (by rw [ht, hf]; rfl) hc
  · by_cases hc : (args.trace_model && !(Config.fixed_size (activeConfig args E))) = true
    · rw [if_pos hc]
      intro s hs
      cases hs
    · rw [if_neg hc]
      intro s hs
      cases hs
      rw [runModels_attempts]
      simp [initRunState]

/-- C2 amended: per model the compilation state (`cur_tracing_interval`)
does start fresh, but the bucket the trigger compares is the function-local
`rounded_seqlen`, which is updated only when a target's features are
freshly assembled and is retained across models. Hence: during the first
model's run (all targets freshly assembled) the trigger fires exactly at
the strict rises of the bucket sequence — for the ascending worklist, once
per distinct bucket — while each subsequent model, reusing the cached
features, fires exactly once, at its first target, against the stale final
bucket of the first pass, and never again within that model's run. -/
theorem c2_trigger_uses_stale_bucket_across_models (args : Args) (E : Ext)
    (ts : List Target) (k : Nat) (hB : BenignCore E)
    (htm : args.trace_model = true)
    (h2 : ∀ t ∈ ts, t.seqs.length = 2)
    (hnd : (ts.map Target.tag).Nodup)
    (hne : ts ≠ [])
    (hpos : ∀ t ∈ ts, 0 < (E.processFd t.tag).seqLen) :
    ∃ B, (ts.map (bucket E)).getLast? = some B ∧
      (runModels args E ts (k + 1) initRunState).events.filter (isTraceM 0)
        = (risesFrom 0 (ts.map (bucket E))).map (fun bb => Ev.traceCall 0 bb)
      ∧ ∀ mm, 1 ≤ mm → mm ≤ k →
          (runModels args E ts (k + 1) initRunState).events.filter (isTraceM mm)
            = [Ev.traceCall mm B] := by
  have hmapne : ts.map (bucket E) ≠ [] := by simpa using hne
  obtain ⟨B, hlast⟩ : ∃ B, (ts.map (bucket E)).getLast? = some B :=
    ⟨_, List.getLast?_eq_getLast _ hmapne⟩
  have hBpos : 0 < B := by
    have hmem : B ∈ ts.map (bucket E) :=
      List.mem_of_mem_getLast? (by rw [hlast]; rfl)
    obtain ⟨t, ht, rfl⟩ := List.mem_map.mp hmem
    exact round_up_seqlen_pos _ (hpos t ht)
  refine ⟨B, hlast, ?_⟩
  obtain ⟨fs0, d0, heq0, hT0⟩ :=
    foldl_fresh_traced args E 0 hB htm ts initRunState h2 hnd (fun t _ => rfl)
  simp only [initRunState] at heq0 hT0
  rw [lastStale_of_getLast? (ts.map (bucket E)) B hlast none] at heq0
  have hm0 : modelRun args E ts initRunState 0 =
      { fs := fs0,
        cache := (ts.map (fun t => (t.tag,
          pad_feature_dict_seq (E.processFd t.tag) (bucket E t)))).reverse ++ [],
        rounded_seqlen := some B,
        curTracingInterval :=
          (ts.map (bucket E)).foldl (fun c bb => if c < bb then bb else c) 0,
        events := [] ++ d0 } := by
    unfold modelRun
    exact heq0
  have hhits : ∀ t ∈ ts, ∃ fd,
      (((ts.map (fun t => (t.tag,
        pad_feature_dict_seq (E.processFd t.tag) (bucket E t)))).reverse
        ++ ([] : List (Tag × FeatureRecord))).lookup t.tag) = some fd := by
    intro t ht
    refine Option.isSome_iff_exists.mp (lookup_isSome_of_mem_keys _ _ ?_)
    simp only [List.map_append, List.map_reverse, List.map_map, List.append_nil,
      List.mem_reverse, List.mem_map, Function.comp]
    exact ⟨t, ht, rfl⟩
  obtain ⟨fsW, curW, dW, heqW, hTW⟩ :=
    warmModels_traced args E hB htm ts B h2 hne hBpos ((List.range k).map Nat.succ)
      { fs := fs0,
        cache := (ts.map (fun t => (t.tag,
          pad_feature_dict_seq (E.processFd t.tag) (bucket E t)))).reverse ++ [],
        rounded_seqlen := some B,
        curTracingInterval :=
          (ts.map (bucket E)).foldl (fun c bb => if c < bb then bb else c) 0,
        events := [] ++ d0 }
      ((List.nodup_range k).map Nat.succ_injective)
      hhits rfl
  have hfull : runModels args E ts (k + 1) initRunState =
      { fs := fsW,
        cache := (ts.map (fun t => (t.tag,
          pad_feature_dict_seq (E.processFd t.tag) (bucket E t)))).reverse ++ [],
        rounded_seqlen := some B,
        curTracingInterval := curW,
        events := ([] ++ d0) ++ dW } := by
    unfold runModels
    rw [List.range_succ_eq_map, List.foldl_cons, hm0]
    exact heqW
  rw [hfull]
  constructor
  · show (([] ++ d0) ++ dW).filter (isTraceM 0) = _
    rw [List.nil_append, List.filter_append, hTW 0,
      filter_of_subpred (isTraceM 0) isTraceEv (traceM_sub_traceEv 0) d0, hT0,
      filter_traceM_map 0 0 (risesFrom 0 (ts.map (bucket E)))]
    simp
  · intro mm h1m hmk
    show (([] ++ d0) ++ dW).filter (isTraceM mm) = _
    rw [List.nil_append, List.filter_append, hTW mm,
      filter_of_subpred (isTraceM mm) isTraceEv (traceM_sub_traceEv mm) d0, hT0,
      filter_traceM_map 0 mm (risesFrom 0 (ts.map (bucket E)))]
    have hmm : mm ∈ (List.range k).map Nat.succ := by
      simp only [List.mem_map, List.mem_range]
      exact ⟨mm - 1, by omega, by omega⟩
    rw [if_neg (by omega), if_pos hmm]
    rfl

/-- C2 counterexample: with two loaded models and the two-target ascending
worklist (buckets 50 then 100), the claim's trigger rule fails at the
second model's second target: the claim predicts a firing (bucket 100
strictly exceeds the largest bucket 50 recorded earlier in that model's
pass), but the code does not fire there — model 1 reuses cached features,
so the stale `rounded_seqlen` stays at 100 from model 0's pass and the
trigger already fired at model 1's first target. -/
theorem c2_per_model_trigger_rule_fails :
    ¬ specC2 c2Args c2Ext c2Targets 2 := by
  intro h
  have hx := h 1 (by decide) 1 (by decide)
  have hc : codeFired c2Args c2Ext c2Targets 1 1 = false := by decide
  have hs : specFired c2Ext c2Targets 1 = true := by decide
  rw [hc, hs] at hx
  exact Bool.false_ne_true hx

/-- C2 amended, witnessed on the concrete two-model, two-target scenario. -/
theorem c2_trigger_uses_stale_bucket_witness :
    ∃ B, (c2Targets.map (bucket c2Ext)).getLast? = some B ∧
      (runModels c2Args c2Ext c2Targets (1 + 1) initRunState).events.filter (isTraceM 0)
        = (risesFrom 0 (c2Targets.map (bucket c2Ext))).map (fun bb => Ev.traceCall 0 bb)
      ∧ ∀ mm, 1 ≤ mm → mm ≤ 1 →
          (runModels c2Args c2Ext c2Targets (1 + 1) initRunState).events.filter (isTraceM mm)
            = [Ev.traceCall mm B] :=
  c2_trigger_uses_stale_bucket_across_models c2Args c2Ext c2Targets 1
    ⟨fun _ => rfl, fun _ => rfl, fun _ => rfl, fun _ => rfl, fun _ => rfl,
      fun _ _ => rfl⟩
    rfl (by decide) (by decide) (by decide) (by decide)

/-- C3: feature assembly is invoked exactly once per composite tag per
batch run, however many models are loaded: over a `(k+1)`-model run with
benign collaborators the log's feature-assembly calls are exactly one call
per target, in worklist order (all made by the first model's pass), and in
particular each tag's assembly call appears exactly once in the whole
log. -/
theorem c3_feature_assembly_once_per_tag (args : Args) (E : Ext)
    (ts : List Target) (k : Nat) (hB : BenignCore E)
    (h2 : ∀ t ∈ ts, t.seqs.length = 2)
    (hnd : (ts.map Target.tag).Nodup) :
    (runModels args E ts (k + 1) initRunState).events.filter isAssembleEv
      = ts.map (fun t => Ev.assembleCall t.tag)
    ∧ ∀ t ∈ ts,
      (runModels args E ts (k + 1) initRunState).events.count
        (Ev.assembleCall t.tag) = 1 := by
  obtain ⟨fs0, stale0, cur0, d0, heq0, hA0, _⟩ :=
    foldl_fresh_basic args E 0 hB ts initRunState h2 hnd (fun t _ => rfl)
  simp only [initRunState] at heq0
  have hm0 : modelRun args E ts initRunState 0 =
      { fs := fs0,
        cache := (ts.map (fun t => (t.tag,
          if args.trace_model then
            pad_feature_dict_seq (E.processFd t.tag) (bucket E t)
          else E.processFd t.tag))).reverse ++ [],
        rounded_seqlen := stale0, curTracingInterval := cur0,
        events := [] ++ d0 } := by
    unfold modelRun
    exact heq0
  have hhits : ∀ t ∈ ts, ∃ fd,
      (((ts.map (fun t => (t.tag,
        if args.trace_model then
          pad_feature_dict_seq (E.processFd t.tag) (bucket E t)
        else E.processFd t.tag))).reverse
        ++ ([] : List (Tag × FeatureRecord))).lookup t.tag) = some fd := by
    intro t ht
    refine Option.isSome_iff_exists.mp (lookup_isSome_of_mem_keys _ _ ?_)
    simp only [List.map_append, List.map_reverse, List.map_map, List.append_nil,
      List.mem_reverse, List.mem_map, Function.comp]
    exact ⟨t, ht, rfl⟩
  obtain ⟨fsW, curW, dW, heqW, hAW, _⟩ :=
    warmModels_basic args E hB ts h2 ((List.range k).map Nat.succ)
      { fs := fs0,
        cache := (ts.map (fun t => (t.tag,
          if args.trace_model then
            pad_feature_dict_seq (E.processFd t.tag) (bucket E t)
          else E.processFd t.tag))).reverse ++ [],
        rounded_seqlen := stale0, curTracingInterval := cur0,
        events := [] ++ d0 }
      hhits
  have hfull : runModels args E ts (k + 1) initRunState =
      { fs := fsW,
        cache := (ts.map (fun t => (t.tag,
          if args.trace_model then
            pad_feature_dict_seq (E.processFd t.tag) (bucket E t)
          else E.processFd t.tag))).reverse ++ [],
        rounded_seqlen := stale0, curTracingInterval := curW,
        events := ([] ++ d0) ++ dW } := by
    unfold runModels
    rw [List.range_succ_eq_map, List.foldl_cons, hm0]
    exact heqW
  have hfilter : (runModels args E ts (k + 1) initRunState).events.filter isAssembleEv
      = ts.map (fun t => Ev.assembleCall t.tag) := by
    rw [hfull]
    show (([] ++ d0) ++ dW).filter isAssembleEv = _
    rw [List.nil_append, List.filter_append, hA0, hAW]
    simp
  refine ⟨hfilter, ?_⟩
  intro t ht
  have hp : isAssembleEv (Ev.assembleCall t.tag) = true := rfl
  have hcf := (List.count_filter (p := isAssembleEv)
    (a := Ev.assembleCall t.tag)
    (l := (runModels args E ts (k + 1) initRunState).events) hp).symm
  have hmm : ts.map (fun t => Ev.assembleCall t.tag)
      = (ts.map Target.tag).map Ev.assembleCall := by
    rw [List.map_map]
    rfl
  rw [hcf, hfilter, hmm]
  exact List.count_eq_one_of_mem
    (hnd.map (fun a b h => by injection h))
    (List.mem_map_of_mem Ev.assembleCall (List.mem_map_of_mem Target.tag ht))

/-- C3, witnessed on the concrete two-model, two-target scenario. -/
theorem c3_feature_assembly_once_witness :
    (runModels c3Args c3Ext c3Targets (1 + 1) initRunState).events.filter isAssembleEv
      = c3Targets.map (fun t => Ev.assembleCall t.tag)
    ∧ ∀ t ∈ c3Targets,
      (runModels c3Args c3Ext c3Targets (1 + 1) initRunState).events.count
        (Ev.assembleCall t.tag) = 1 :=
  c3_feature_assembly_once_per_tag c3Args c3Ext c3Targets 1
    ⟨fun _ => rfl, fun _ => rfl, fun _ => rfl, fun _ => rfl, fun _ => rfl,
      fun _ _ => rfl⟩
    (by decide) (by decide)

/-- C10: the feature cache is not rolled back on per-target failure. With
inference (`run_model`) raising for every model and target, over a
`(k+1)`-model run: feature assembly is still performed exactly once per
tag (all by the first model's pass), no target ever completes (zero done
events, every one of the `(k+1)*|ts|` attempts ends in a caught failure),
and yet afterwards the cache holds a record for every tag — so each
subsequent model reused the cached record instead of re-invoking
assembly. -/
theorem c10_cache_survives_per_target_failure (args : Args) (E : Ext)
    (ts : List Target) (k : Nat) (hB : BenignCore E)
    (hrun : ∀ m g, E.runModelOk m g = false)
    (h2 : ∀ t ∈ ts, t.seqs.length = 2)
    (hnd : (ts.map Target.tag).Nodup) :
    (runModels args E ts (k + 1) initRunState).events.filter isAssembleEv
      = ts.map (fun t => Ev.assembleCall t.tag)
    ∧ (runModels args E ts (k + 1) initRunState).events.countP isDoneEv = 0
    ∧ (runModels args E ts (k + 1) initRunState).events.countP isTerminalEv
        = (k + 1) * ts.length
    ∧ ∀ t ∈ ts,
        (((runModels args E ts (k + 1) initRunState).cache.lookup t.tag)).isSome
          = true := by
  obtain ⟨fs0, stale0, cur0, d0, heq0, hA0, hD0⟩ :=
    foldl_fresh_basic args E 0 hB ts initRunState h2 hnd (fun t _ => rfl)
  simp only [initRunState] at heq0
  have hm0 : modelRun args E ts initRunState 0 =
      { fs := fs0,
        cache := (ts.map (fun t => (t.tag,
          if args.trace_model then
            pad_feature_dict_seq (E.processFd t.tag) (bucket E t)
          else E.processFd t.tag))).reverse ++ [],
        rounded_seqlen := stale0, curTracingInterval := cur0,
        events := [] ++ d0 } := by
    unfold modelRun
    exact heq0
  have hhits : ∀ t ∈ ts, ∃ fd,
      (((ts.map (fun t => (t.tag,
        if args.trace_model then
          pad_feature_dict_seq (E.processFd t.tag) (bucket E t)
        else E.processFd t.tag))).reverse
        ++ ([] : List (Tag × FeatureRecord))).lookup t.tag) = some fd := by
    intro t ht
    refine Option.isSome_iff_exists.mp (lookup_isSome_of_mem_keys _ _ ?_)
    simp only [List.map_append, List.map_reverse, List.map_map, List.append_nil,
      List.mem_reverse, List.mem_map, Function.comp]
    exact ⟨t, ht, rfl⟩
  obtain ⟨fsW, curW, dW, heqW, hAW, hDW⟩ :=
    warmModels_basic args E hB ts h2 ((List.range k).map Nat.succ)
      { fs := fs0,
        cache := (ts.map (fun t => (t.tag,
          if args.trace_model then
            pad_feature_dict_seq (E.processFd t.tag) (bucket E t)
          else E.processFd t.tag))).reverse ++ [],
        rounded_seqlen := stale0, curTracingInterval := cur0,
        events := [] ++ d0 }
      hhits
  have hfull : runModels args E ts (k + 1) initRunState =
      { fs := fsW,
        cache := (ts.map (fun t => (t.tag,
          if args.trace_model then
            pad_feature_dict_seq (E.processFd t.tag) (bucket E t)
          else E.processFd t.tag))).reverse ++ [],
        rounded_seqlen := stale0, curTracingInterval := curW,
        events := ([] ++ d0) ++ dW } := by
    unfold runModels
    rw [List.range_succ_eq_map, List.foldl_cons, hm0]
    exact heqW
  refine ⟨?_, ?_, ?_, ?_⟩
  · rw [hfull]
    show (([] ++ d0) ++ dW).filter isAssembleEv = _
    rw [List.nil_append, List.filter_append, hA0, hAW]
    simp
  · rw [List.countP_eq_length_filter, hfull]
    show ((([] ++ d0) ++ dW).filter isDoneEv).length = 0
    rw [List.nil_append, List.filter_append, hD0 (fun g => hrun 0 g),
      hDW hrun]
    rfl
  · rw [runModels_terminals]
    simp [initRunState]
  · intro t ht
    rw [hfull]
    obtain ⟨fd, hfd⟩ := hhits t ht
    show (List.lookup t.tag _).isSome = true
    rw [hfd]
    rfl

/-- C10, witnessed on the concrete two-model, two-target scenario with
always-failing inference. -/
theorem c10_cache_survives_failure_witness :
    (runModels c3Args c10Ext c3Targets (1 + 1) initRunState).events.filter isAssembleEv
      = c3Targets.map (fun t => Ev.assembleCall t.tag)
    ∧ (runModels c3Args c10Ext c3Targets (1 + 1) initRunState).events.countP isDoneEv = 0
    ∧ (runModels c3Args c10Ext c3Targets (1 + 1) initRunState).events.countP isTerminalEv
        = (1 + 1) * c3Targets.length
    ∧ ∀ t ∈ c3Targets,
        (((runModels c3Args c10Ext c3Targets (1 + 1) initRunState).cache.lookup t.tag)).isSome
          = true :=
  c10_cache_survives_per_target_failure c3Args c10Ext c3Targets 1
    ⟨fun _ => rfl, fun _ => rfl, fun _ => rfl, fun _ => rfl, fun _ => rfl,
      fun _ _ => rfl⟩
    (fun _ _ => rfl) (by decide) (by decide)

/-- C1 (code_bug evidence): running the full pipeline on one single-chain
50-residue target with a single loaded model, relaxation skipped and
diagnostics disabled does NOT produce an unrelaxed structure file: the
per-target body raises (the two-variable unpack
`seq_length_1, seq_length_2 = map(len, seqs)` at line 351 fails for a
one-element sequence list), the exception is caught at the per-target
boundary, and the run ends with an empty filesystem — in particular
without `out/model_1/target1/unrelaxed.pdb`. -/
theorem c1_single_chain_run_produces_no_unrelaxed_file :
    mainRun c1Args c1Ext c1Files =
      .ok { fs := [], cache := [("T", { seqLen := 50, msa := [] })],
            rounded_seqlen := none, curTracingInterval := 0,
            events := [.attempt 0 "T", .assembleCall "T", .failed 0 "T"] } := by
  decide

/-- C6: for every 3-D alignment tensor whose rows span exactly the two
chains' column ranges, `get_msa_stats` (with `if_homo = false`, as
hardcoded at line 353) reports, for every recycling iteration, exactly the
triple (rows present in both chains, rows present only in chain 1, rows
present only in chain 2) among the rows that are not entirely the padding
sentinel, with presence meaning "not all positions of the chain's column
range equal the gap sentinel 21". -/
theorem c6_get_msa_stats_reports_claim_counts (all_msa : List (List (List Nat)))
    (l1 l2 n : Nat) (hw : ∀ row ∈ all_msa, row.length = l1 + l2) :
    get_msa_stats all_msa l1 l2 n false =
      .ok ((List.range n).map (fun i => claimCounts (sliceIter all_msa i) l1 l2)) := by
  unfold get_msa_stats
  apply mapM_ok_of_forall
  intro i _
  apply msaStatsSlice_spec
  intro row hrow
  simp only [sliceIter, List.mem_map] at hrow
  obtain ⟨r, hr, rfl⟩ := hrow
  simpa using hw r hr

/-- C6 witness: the planted pattern — five retained rows, three present in
both chains, two present only in chain 1, zero present only in chain 2,
for iteration 1 of 1 — yields paired=3, unpaired_chain_1=2,
unpaired_chain_2=0. -/
theorem c6_get_msa_stats_witness :
    get_msa_stats c6Tensor 2 2 1 false = .ok [(3, 2, 0)] := by
  rw [c6_get_msa_stats_reports_claim_counts c6Tensor 2 2 1 (by decide)]
  rfl

/-- C7: the worklist produced by target discovery and sorting is ordered
ascending by total sequence length summed across each target's chains:
every pair of consecutive targets satisfies earlier total ≤ later total. -/
theorem c7_worklist_sorted_by_total_length (is_multimer : Bool)
    (files : List (String × List (Tag × String))) :
    List.Chain' (fun a b => seq_sort_fn a ≤ seq_sort_fn b)
      (sortTargets (discoverTargets is_multimer files)) := by
  unfold sortTargets
  haveI : IsTotal Target (fun a b => seq_sort_fn a ≤ seq_sort_fn b) :=
    ⟨fun a b => Nat.le_total _ _⟩
  haveI : IsTrans Target (fun a b => seq_sort_fn a ≤ seq_sort_fn b) :=
    ⟨fun _ _ _ => Nat.le_trans⟩
  exact (List.sorted_insertionSort _ (discoverTargets is_multimer files)).chain'

/-- C9: when a config-override JSON path is supplied, the overlay is
applied twice in sequence with identical inputs (lines 212-220), and the
double application equals a single application of
`update_from_flattened_dict` — the overlay is idempotent under
map-overwrite semantics. -/
theorem c9_config_overlay_applied_twice_is_idempotent (args : Args) (E : Ext)
    (h : args.experiment_config_json ≠ "") :
    activeConfig args E = update_from_flattened_dict E.baseConfig E.experimentDict := by
  simp only [activeConfig, if_neg h]
  funext k
  simp only [update_from_flattened_dict_apply]
  cases hgl : ((E.experimentDict.filter (fun kv => kv.1 == k)).getLast?) <;> simp [hgl]

/-- C9 witness: a concrete run with a supplied override path and a
two-entry flattened dictionary. -/
theorem c9_config_overlay_witness :
    activeConfig c9Args c9Ext =
      update_from_flattened_dict c9Ext.baseConfig c9Ext.experimentDict :=
  c9_config_overlay_applied_twice_is_idempotent c9Args c9Ext (by decide)

/-- C4 counterexample: the scratch FASTA file is NOT deleted on the
failure path. When the external alignment runner raises inside
`precompute_alignments`, and when the feature processor raises inside
`generate_feature_dict`, the raise happens before the `os.remove` of
lines 153 and 190, and the resulting state still contains the scratch
path `out/tmp_7.fasta` (= `tmp_fasta_path c4Args`) on disk. -/
theorem c4_scratch_file_left_on_failure :
    precompute_alignments c4Args c4ExtAlign (c4Target.tags.zip c4Target.seqs) initRunState
      = .error ("AlignmentRunner.run",
          { fs := ["out/tmp_7.fasta"], cache := [], rounded_seqlen := none,
            curTracingInterval := 0, events := [.alignRunCall "A"] })
    ∧ generate_feature_dict c4Args c4ExtFeat c4Target initRunState
      = .error ("data_processor.process_fasta",
          { fs := ["out/tmp_7.fasta"], cache := [], rounded_seqlen := none,
            curTracingInterval := 0, events := [.assembleCall "A-B"] })
    ∧ tmp_fasta_path c4Args = "out/tmp_7.fasta" :=
  ⟨rfl, rfl, rfl⟩

/-- C4 amended: the scratch FASTA file is deleted after use on the success
path of both `precompute_alignments` and `generate_feature_dict` (provided
it was not already present beforehand, which holds throughout the driver);
on the failure path the removal is skipped and the file remains on disk. -/
theorem c4_scratch_file_removed_on_success (args : Args) (E : Ext)
    (chains : List (Tag × String)) (t : Target) (s : RunState)
    (hno : tmp_fasta_path args ∉ s.fs) :
    (∀ s', precompute_alignments args E chains s = .ok s' →
      tmp_fasta_path args ∉ s'.fs)
    ∧ (∀ fd s', generate_feature_dict args E t s = .ok (fd, s') →
      tmp_fasta_path args ∉ s'.fs) := by
  constructor
  · intro s' h
    rw [precompute_alignments_ok_fs args E chains s s' hno h]
    exact hno
  · intro fd s' h
    rw [generate_feature_dict_ok_fs args E t s hno fd s' h]
    exact hno

/-- C4 witness: the amended success-path property at a concrete input with
all collaborators succeeding. -/
theorem c4_scratch_file_removed_witness :
    tmp_fasta_path c4Args ∉ initRunState.fs ∧
    (∀ s', precompute_alignments c4Args c4ExtOk (c4Target.tags.zip c4Target.seqs)
        initRunState = .ok s' → tmp_fasta_path c4Args ∉ s'.fs) :=
  ⟨by decide,
   (c4_scratch_file_removed_on_success c4Args c4ExtOk (c4Target.tags.zip c4Target.seqs)
     c4Target initRunState (by decide)).1⟩

end RunOpenfold
